import Mathlib

/-!
# awsweeper: the match engine and the per-type delete procedures

A shallow embedding of `src/command_output.go`.

* Go `map[string]string` values are association lists (`StrMap`); a map that
  is only read (`rVal.Tags`) is traversed entry by entry, a map that is written
  (`(*m)[key] = value`) keeps one entry per key.
* `*string` values of the AWS SDK are modelled by the strings they point to; a
  nil pointer is not a value of the model.
* `err == nil` is `some`, `err != nil` is `none`.
* `regexp` is the Go standard library: the pattern syntax is a parameter
  (`Compile`), matching is "the text contains a match".
* A call on a service connection is a function of its argument; the response
  is taken not to depend on the calls made before it.
* `jsonq` is a library: `listStuff` is stated over the two queries it makes
  (`JsonQuery`), and `jsonq.NewQuery` models the library on decoded JSON.
* `deleteResources` is not part of the embedded file: a delete procedure is
  modelled by the list of `ResourceSet`s it hands to `deleteResources`, in call
  order; `c.in` is the same at every `checkDelete`. Output on stdout is not
  modelled.
-/

namespace Awsweeper

/-! ## Go maps from string to string -/

/-- Go `map[string]string`. -/
abbrev StrMap := List (String × String)

/-- Go `v, ok := m[k]`. -/
def StrMap.get? (m : StrMap) (k : String) : Option String :=
  m.lookup k

/-- Go `m[k] = v`: the entry for `k` is replaced. -/
def StrMap.set (m : StrMap) (k v : String) : StrMap :=
  m.filter (fun e => e.1 != k) ++ [(k, v)]

/-! ## The `regexp` package -/

/-- A compiled regular expression (`*regexp.Regexp`), given by its match
relation: `matchAt pre mid suf` tells whether the expression matches the piece
`mid` of the text `pre ++ mid ++ suf` (the context is there for `^`, `$`, `\b`). -/
structure Regexp where
  matchAt : List Char → List Char → List Char → Bool

/-- All ways of cutting a text in two. -/
def cuts : List Char → List (List Char × List Char)
  | [] => [([], [])]
  | a :: l => ([], a :: l) :: (cuts l).map (fun p => (a :: p.1, p.2))

/-- Go `re.MatchString(s)`: "reports whether the string s contains any match of
the regular expression re". -/
def Regexp.MatchString (re : Regexp) (s : String) : Bool :=
  (cuts s.data).any fun p => (cuts p.2).any fun q => re.matchAt p.1 q.1 q.2

/-- Go `regexp.MatchString(pattern, s)`: compiles the pattern, and on a syntax
error returns `false` together with the error (second component `true`). -/
def regexp.MatchString (Compile : String → Option Regexp) (pattern s : String) :
    Bool × Bool :=
  match Compile pattern with
  | none => (false, true)
  | some re => (re.MatchString s, false)

/-! ## Configuration and resource sets -/

/-- One entry of the yaml configuration (`B`): id patterns and tag patterns. -/
structure B where
  Ids : List String := []
  Tags : StrMap := []
deriving DecidableEq, Repr

/-- What a delete procedure hands to `deleteResources` (`Type_` is the Go field
`Type`). A field left out of the Go composite literal is the nil slice, here
`[]`. -/
structure ResourceSet where
  Type_ : String
  Ids : List String := []
  Tags : List StrMap := []
  Attrs : List StrMap := []
deriving DecidableEq, Repr

/-! ## Decoded JSON and the `jsonq` query object -/

/-- A decoded JSON document (`interface{}` after `json.Decoder.Decode`). Numbers
only matter here as values that are neither strings, arrays nor objects. -/
inductive JSON where
  | null
  | bool (b : Bool)
  | num (n : Int)
  | str (s : String)
  | arr (items : List JSON)
  | obj (members : List (String × JSON))
deriving Repr

/-- The two queries `listStuff` makes on a `*jsonq.JsonQuery` (`String_` is the
Go method `String`), each from a path to a result or an error (`none`). -/
structure JsonQuery where
  Array : List String → Option (List JSON)
  String_ : List String → Option String

/-- Go `strconv.Itoa(i)` for the loop indices `0 ≤ i`. -/
def strconv.Itoa (i : Nat) : String :=
  toString i

/-- Value of a non-empty run of decimal digits. -/
def strconv.digits (cs : List Char) : Option Nat :=
  if cs ≠ [] ∧ cs.all Char.isDigit then
    some (cs.foldl (fun n ch => 10 * n + (ch.toNat - 48)) 0)
  else none

/-- Go `strconv.Atoi(s)`: an optional sign and decimal digits, within the range
of a 64-bit `int`; `none` is a syntax or range error. -/
def strconv.Atoi (s : String) : Option Int :=
  match s.data with
  | '-' :: cs => (strconv.digits cs).bind fun n => if n ≤ 2 ^ 63 then some (-(n : Int)) else none
  | '+' :: cs => (strconv.digits cs).bind fun n => if n < 2 ^ 63 then some (n : Int) else none
  | cs => (strconv.digits cs).bind fun n => if n < 2 ^ 63 then some (n : Int) else none

/-- The step `query(blob, q)` of `jsonq`: a path element that `Atoi` accepts
indexes an array, any other one selects an object member. An index below zero
is outside the slice and is reported as an error here. -/
def jsonq.query (blob : JSON) (q : String) : Option JSON :=
  match strconv.Atoi q with
  | some index =>
    match blob with
    | .arr items => if 0 ≤ index then items.get? index.toNat else none
    | _ => none
  | none =>
    match blob with
    | .obj members => members.lookup q
    | _ => none

/-- The walk `rquery(blob, s...)` of `jsonq`: one `query` per path element; a
nil value at the end of the path is an error. -/
def jsonq.rquery (blob : JSON) : List String → Option JSON
  | [] => match blob with
    | .null => none
    | val => some val
  | q :: s => match jsonq.query blob q with
    | some val => jsonq.rquery val s
    | none => none

/-- The `[]interface{}` found at `path` below `blob` (`rquery`, then
`arrayFromInterface`), or an error. -/
def jsonq.arrayAt (blob : JSON) (path : List String) : Option (List JSON) :=
  match jsonq.rquery blob path with
  | some (.arr items) => some items
  | _ => none

/-- The string found at `path` below `blob` (`rquery`, then
`stringFromInterface`), or an error. -/
def jsonq.stringAt (blob : JSON) (path : List String) : Option String :=
  match jsonq.rquery blob path with
  | some (.str v) => some v
  | _ => none

/-- Go `jsonq.NewQuery(data)` for a decoded object `data`, with its `Array` and
`String` queries. -/
def jsonq.NewQuery (data : List (String × JSON)) : JsonQuery where
  Array s := jsonq.arrayAt (.obj data) s
  String_ s := jsonq.stringAt (.obj data) s

/-! ## The AWS SDK, as far as the delete procedures read it -/

/-- Go `ec2.Tag`. -/
structure Tag where
  Key : String
  Value : String
deriving DecidableEq, Repr

namespace efs

structure FileSystemDescription where
  Name : String
  FileSystemId : String
deriving DecidableEq, Repr

structure MountTargetDescription where
  MountTargetId : String
deriving DecidableEq, Repr

structure DescribeFileSystemsOutput where
  FileSystems : List FileSystemDescription
deriving DecidableEq, Repr

structure DescribeMountTargetsOutput where
  MountTargets : List MountTargetDescription
deriving DecidableEq, Repr

/-- The calls made on `c.efsconn`; `DescribeMountTargets` by `FileSystemId`. -/
structure EFS where
  DescribeFileSystems : Option DescribeFileSystemsOutput := none
  DescribeMountTargets : String → Option DescribeMountTargetsOutput := fun _ => none

end efs

namespace ec2

structure Instance where
  InstanceId : String
  /-- Go `in.State.Name`. -/
  StateName : String
  Tags : List Tag := []
deriving DecidableEq, Repr

structure Reservation where
  Instances : List Instance
deriving DecidableEq, Repr

structure DescribeInstancesOutput where
  Reservations : List Reservation
deriving DecidableEq, Repr

structure Image where
  ImageId : String
  Tags : List Tag := []
deriving DecidableEq, Repr

structure DescribeImagesOutput where
  Images : List Image
deriving DecidableEq, Repr

/-- The calls made on `c.ec2conn`. -/
structure EC2 where
  DescribeInstances : Option DescribeInstancesOutput := none
  DescribeImages : Option DescribeImagesOutput := none

end ec2

namespace iam

structure User where
  UserName : String
deriving DecidableEq, Repr

structure AttachedPolicy where
  PolicyArn : String
deriving DecidableEq, Repr

structure Policy where
  Arn : String
  PolicyName : String
deriving DecidableEq, Repr

structure Role where
  RoleName : String
deriving DecidableEq, Repr

structure ListEntitiesForPolicyOutput where
  /-- The `UserName` of each entry of `PolicyUsers`. -/
  PolicyUsers : List String := []
  /-- The `GroupName` of each entry of `PolicyGroups`. -/
  PolicyGroups : List String := []
  /-- The `RoleName` of each entry of `PolicyRoles`. -/
  PolicyRoles : List String := []
deriving DecidableEq, Repr

/-- The calls made on `c.iamconn` whose results reach `deleteResources`; each
inner list is the field read from the output (`Users`, `AttachedPolicies`,
`Policies`, `Roles`, `PolicyNames`). `ListUserPolicies` and
`ListInstanceProfilesForRole` are only printed. -/
structure IAM where
  ListUsers : Option (List User) := none
  ListAttachedUserPolicies : String → Option (List AttachedPolicy) := fun _ => none
  ListPolicies : Option (List Policy) := none
  ListEntitiesForPolicy : String → Option ListEntitiesForPolicyOutput := fun _ => none
  ListRoles : Option (List Role) := none
  ListAttachedRolePolicies : String → Option (List AttachedPolicy) := fun _ => none
  ListRolePolicies : String → Option (List String) := fun _ => none

end iam

namespace route53

structure HostedZone where
  Id : String
  Name : String
deriving DecidableEq, Repr

structure ResourceRecordSet where
  /-- The `Value` of each entry of `ResourceRecords`. -/
  ResourceRecords : List String
deriving DecidableEq, Repr

/-- The calls made on `c.r53conn`; `ListResourceRecordSets` by `HostedZoneId`. -/
structure Route53 where
  ListHostedZones : Option (List HostedZone) := none
  ListResourceRecordSets : String → Option (List ResourceRecordSet) := fun _ => none

end route53

namespace kms

structure KeyListEntry where
  KeyId : String
  KeyArn : String
deriving DecidableEq, Repr

/-- The calls made on `c.kmsconn`: `ListAliases` gives the decoded response,
`DescribeKey` (by `KeyId`) gives `KeyMetadata.KeyState`. -/
structure KMS where
  ListAliases : Option (List (String × JSON)) := none
  ListKeys : Option (List KeyListEntry) := none
  DescribeKey : String → Option String := fun _ => none

end kms

/-- The fields of `ResourceDeleteDescription` that `listStuff` reads. -/
structure ResourceDeleteDescription where
  TerraformResourceType : String
  Name : String
  Id : String
deriving DecidableEq, Repr

/-- The fields of `WipeCommand` read by the delete procedures: the
configuration `c.in` (here `in_`) and the service connections. -/
structure WipeCommand where
  in_ : List (String × B) := []
  efsconn : efs.EFS := {}
  ec2conn : ec2.EC2 := {}
  iamconn : iam.IAM := {}
  r53conn : route53.Route53 := {}
  kmsconn : kms.KMS := {}

/-! ## checkDelete -/

/-- The loop `for _, regex := range rVal.Ids` of `checkDelete`. -/
def checkDelete.idLoop (Compile : String → Option Regexp) (id : String) : List String → Bool
  | [] => false
  | regex :: rest =>
    let res := (regexp.MatchString Compile regex id).1
    if res then true else checkDelete.idLoop Compile id rest

/-- The loop `for k, v := range rVal.Tags` of `checkDelete`; `tags` is the
variadic parameter. -/
def checkDelete.tagLoop (Compile : String → Option Regexp) (tags : List StrMap) :
    List (String × String) → Bool
  | [] => false
  | (k, v) :: rest =>
    match tags with
    | t :: _ =>
      match t.get? k with
      | some tVal =>
        let res := (regexp.MatchString Compile v tVal).1
        if res then true else checkDelete.tagLoop Compile tags rest
      | none => checkDelete.tagLoop Compile tags rest
    | [] => checkDelete.tagLoop Compile tags rest

/-- `c.checkDelete(rType, id, tags...)`. -/
def checkDelete (Compile : String → Option Regexp) (c : WipeCommand)
    (rType : String) (id : String) (tags : List StrMap) : Bool :=
  match c.in_.lookup rType with
  | some rVal =>
    if rVal.Ids.length = 0 ∧ rVal.Tags.length = 0 then true
    else if checkDelete.idLoop Compile id rVal.Ids then true
    else if checkDelete.tagLoop Compile tags rVal.Tags then true
    else false
  | none => false

/-! ## The delete procedures

Each procedure returns the `ResourceSet`s it hands to `deleteResources`, in
call order. A `for ... range` loop is a left fold of its body over the slice;
the loop state is the tuple of the slices the body appends to. -/

/-- Body of the inner loop of `deleteRoute53Record`, over the values `rr` of
`r.ResourceRecords`; state `ids`. -/
def deleteRoute53Record.body (Compile : String → Option Regexp) (c : WipeCommand)
    (resourceType : String) (ids : List String) (rr : String) : List String :=
  if checkDelete Compile c resourceType rr [] then ids ++ [rr] else ids

/-- `c.deleteRoute53Record(resourceType, hostedZoneId)`. -/
def deleteRoute53Record (Compile : String → Option Regexp) (c : WipeCommand)
    (resourceType : String) (hostedZoneId : String) : List ResourceSet :=
  match c.r53conn.ListResourceRecordSets hostedZoneId with
  | some res =>
    let ids := res.foldl (fun ids r =>
      r.ResourceRecords.foldl (deleteRoute53Record.body Compile c resourceType) ids) []
    [{ Type_ := resourceType, Ids := ids }]
  | none => []

/-- Body of the loop of `deleteRoute53Zone`; state `(calls, hzIds, hzAttrs)`,
where `calls` are the calls to `deleteResources` made so far. -/
def deleteRoute53Zone.body (Compile : String → Option Regexp) (c : WipeCommand)
    (resourceType : String) (st : List ResourceSet × List String × List StrMap)
    (hz : route53.HostedZone) : List ResourceSet × List String × List StrMap :=
  if checkDelete Compile c resourceType hz.Id [] then
    (st.1 ++ deleteRoute53Record Compile c resourceType hz.Id,
     st.2.1 ++ [hz.Id],
     st.2.2 ++ [[("force_destroy", "true"), ("name", hz.Name)]])
  else st

/-- `c.deleteRoute53Zone(resourceType)`. -/
def deleteRoute53Zone (Compile : String → Option Regexp) (c : WipeCommand)
    (resourceType : String) : List ResourceSet :=
  match c.r53conn.ListHostedZones with
  | some res =>
    let st := res.foldl (deleteRoute53Zone.body Compile c resourceType) ([], [], [])
    st.1 ++ [{ Type_ := resourceType, Ids := st.2.1, Attrs := st.2.2 }]
  | none => []

/-- Body of the loop of `deleteEfsFileSystem`; state `(fsIds, mtIds)`. -/
def deleteEfsFileSystem.body (Compile : String → Option Regexp) (c : WipeCommand)
    (resourceType : String) (st : List String × List String)
    (r : efs.FileSystemDescription) : List String × List String :=
  if checkDelete Compile c resourceType r.Name [] then
    let mtIds := match c.efsconn.DescribeMountTargets r.FileSystemId with
      | some res => res.MountTargets.foldl (fun mtIds r => mtIds ++ [r.MountTargetId]) st.2
      | none => st.2
    (st.1 ++ [r.FileSystemId], mtIds)
  else st

/-- `c.deleteEfsFileSystem(resourceType)`. -/
def deleteEfsFileSystem (Compile : String → Option Regexp) (c : WipeCommand)
    (resourceType : String) : List ResourceSet :=
  match c.efsconn.DescribeFileSystems with
  | some res =>
    let st := res.FileSystems.foldl (deleteEfsFileSystem.body Compile c resourceType) ([], [])
    [{ Type_ := "aws_efs_mount_target", Ids := st.2 },
     { Type_ := resourceType, Ids := st.1 }]
  | none => []

/-- The tag map `m` built by `for _, t := range Tags { (*m)[*t.Key] = *t.Value }`. -/
def tagMap (tags : List Tag) : StrMap :=
  tags.foldl (fun m t => m.set t.Key t.Value) []

/-- Body of the inner loop of `deleteInstances`; state `(ids, tags)`. -/
def deleteInstances.body (Compile : String → Option Regexp) (c : WipeCommand)
    (resourceType : String) (st : List String × List StrMap)
    (inst : ec2.Instance) : List String × List StrMap :=
  if inst.StateName != "terminated" then
    let m := tagMap inst.Tags
    if checkDelete Compile c resourceType inst.InstanceId [m] then
      (st.1 ++ [inst.InstanceId], st.2 ++ [m])
    else st
  else st

/-- `c.deleteInstances(resourceType)`. -/
def deleteInstances (Compile : String → Option Regexp) (c : WipeCommand)
    (resourceType : String) : List ResourceSet :=
  match c.ec2conn.DescribeInstances with
  | some res =>
    let st := res.Reservations.foldl (fun st r =>
      r.Instances.foldl (deleteInstances.body Compile c resourceType) st) ([], [])
    [{ Type_ := resourceType, Ids := st.1, Tags := st.2 }]
  | none => []

/-- Body of the loop of `deleteIamUser`; state `(ids, pIds, attrs, pAttrs)`. -/
def deleteIamUser.body (Compile : String → Option Regexp) (c : WipeCommand)
    (resourceType : String) (st : List String × List String × List StrMap × List StrMap)
    (u : iam.User) : List String × List String × List StrMap × List StrMap :=
  if checkDelete Compile c resourceType u.UserName [] then
    let p := match c.iamconn.ListAttachedUserPolicies u.UserName with
      | some upols =>
        upols.foldl (fun (p : List String × List StrMap) (upol : iam.AttachedPolicy) =>
          (p.1 ++ [upol.PolicyArn],
           p.2 ++ [[("user", u.UserName), ("policy_arn", upol.PolicyArn)]]))
          (st.2.1, st.2.2.2)
      | none => (st.2.1, st.2.2.2)
    (st.1 ++ [u.UserName], p.1, st.2.2.1 ++ [[("force_destroy", "true")]], p.2)
  else st

/-- `c.deleteIamUser(resourceType)`. -/
def deleteIamUser (Compile : String → Option Regexp) (c : WipeCommand)
    (resourceType : String) : List ResourceSet :=
  match c.iamconn.ListUsers with
  | some res =>
    let st := res.foldl (deleteIamUser.body Compile c resourceType) ([], [], [], [])
    [{ Type_ := "aws_iam_user_policy_attachment", Ids := st.2.1, Attrs := st.2.2.2 },
     { Type_ := resourceType, Ids := st.1, Attrs := st.2.2.1 }]
  | none => []

/-- Body of the loop of `deleteIamPolicy`; state `(ids, eIds, attributes)`. -/
def deleteIamPolicy.body (Compile : String → Option Regexp) (c : WipeCommand)
    (resourceType : String) (st : List String × List String × List StrMap)
    (pol : iam.Policy) : List String × List String × List StrMap :=
  if checkDelete Compile c resourceType pol.Arn [] then
    let e := match c.iamconn.ListEntitiesForPolicy pol.Arn with
      | some es =>
        let users := es.PolicyUsers.foldl (fun users u => users ++ [u]) []
        let groups := es.PolicyGroups.foldl (fun groups g => groups ++ [g]) []
        let roles := es.PolicyRoles.foldl (fun roles r => roles ++ [r]) []
        (st.2.1 ++ [pol.Arn],
         st.2.2 ++ [[("policy_arn", pol.Arn),
                     ("name", pol.PolicyName),
                     ("users", ".".intercalate users),
                     ("roles", ".".intercalate roles),
                     ("groups", ".".intercalate groups)]])
      | none => (st.2.1, st.2.2)
    (st.1 ++ [pol.Arn], e.1, e.2)
  else st

/-- `c.deleteIamPolicy(resourceType)`. -/
def deleteIamPolicy (Compile : String → Option Regexp) (c : WipeCommand)
    (resourceType : String) : List ResourceSet :=
  match c.iamconn.ListPolicies with
  | some res =>
    let st := res.foldl (deleteIamPolicy.body Compile c resourceType) ([], [], [])
    [{ Type_ := "aws_iam_policy_attachment", Ids := st.2.1, Attrs := st.2.2 },
     { Type_ := resourceType, Ids := st.1 }]
  | none => []

/-- Body of the loop of `deleteIamRole`; state
`(ids, rpolIds, rpolAttributes, pIds)`. -/
def deleteIamRole.body (Compile : String → Option Regexp) (c : WipeCommand)
    (resourceType : String) (st : List String × List String × List StrMap × List String)
    (role : iam.Role) : List String × List String × List StrMap × List String :=
  if checkDelete Compile c resourceType role.RoleName [] then
    let a := match c.iamconn.ListAttachedRolePolicies role.RoleName with
      | some rpols =>
        rpols.foldl (fun (a : List String × List StrMap) (rpol : iam.AttachedPolicy) =>
          (a.1 ++ [rpol.PolicyArn],
           a.2 ++ [[("role", role.RoleName), ("policy_arn", rpol.PolicyArn)]]))
          (st.2.1, st.2.2.1)
      | none => (st.2.1, st.2.2.1)
    let pIds := match c.iamconn.ListRolePolicies role.RoleName with
      | some rps => rps.foldl (fun pIds rp => pIds ++ [role.RoleName ++ ":" ++ rp]) st.2.2.2
      | none => st.2.2.2
    (st.1 ++ [role.RoleName], a.1, a.2, pIds)
  else st

/-- `c.deleteIamRole(resourceType)`. -/
def deleteIamRole (Compile : String → Option Regexp) (c : WipeCommand)
    (resourceType : String) : List ResourceSet :=
  match c.iamconn.ListRoles with
  | some res =>
    let st := res.foldl (deleteIamRole.body Compile c resourceType) ([], [], [], [])
    [{ Type_ := "aws_iam_role_policy_attachment", Ids := st.2.1, Attrs := st.2.2.1 },
     { Type_ := "aws_iam_role_policy", Ids := st.2.2.2 },
     { Type_ := resourceType, Ids := st.1 }]
  | none => []

/-- Body of the loop of `deleteKmsKeys`; state `(ids, attributes)`. The body
does not call `checkDelete`. -/
def deleteKmsKeys.body (c : WipeCommand) (st : List String × List StrMap)
    (r : kms.KeyListEntry) : List String × List StrMap :=
  match c.kmsconn.DescribeKey r.KeyId with
  | some keyState =>
    if keyState != "PendingDeletion" then
      (st.1 ++ [r.KeyArn], st.2 ++ [[("key_id", r.KeyId)]])
    else st
  | none => st

/-- `c.deleteKmsKeys(resourceType)`: the set is built from `ids` alone,
`attributes` is not handed over. -/
def deleteKmsKeys (c : WipeCommand) (resourceType : String) : List ResourceSet :=
  match c.kmsconn.ListKeys with
  | some res =>
    let st := res.foldl (deleteKmsKeys.body c) ([], [])
    [{ Type_ := resourceType, Ids := st.1 }]
  | none => []

/-- Body of the loop of `deleteAmis`; state `(ids, tags)`. -/
def deleteAmis.body (Compile : String → Option Regexp) (c : WipeCommand)
    (resourceType : String) (st : List String × List StrMap)
    (r : ec2.Image) : List String × List StrMap :=
  let m := tagMap r.Tags
  if checkDelete Compile c resourceType r.ImageId [m] then
    (st.1 ++ [r.ImageId], st.2 ++ [m])
  else st

/-- `c.deleteAmis(resourceType)`. -/
def deleteAmis (Compile : String → Option Regexp) (c : WipeCommand)
    (resourceType : String) : List ResourceSet :=
  match c.ec2conn.DescribeImages with
  | some res =>
    let st := res.Images.foldl (deleteAmis.body Compile c resourceType) ([], [])
    [{ Type_ := resourceType, Ids := st.1, Tags := st.2 }]
  | none => []

/-- Body of the inner loop of `listStuff` over `j`, for item `i`; state `m`. -/
def listStuff.tagBody (jq : JsonQuery) (name : String) (i : Nat) (m : StrMap) (j : Nat) :
    StrMap :=
  match jq.String_ [name, strconv.Itoa i, "Tags", strconv.Itoa j, "Key"],
        jq.String_ [name, strconv.Itoa i, "Tags", strconv.Itoa j, "Value"] with
  | some key, some value => m.set key value
  | _, _ => m

/-- Body of the loop of `listStuff` over `i`; state `(ids, tags)`. -/
def listStuff.body (Compile : String → Option Regexp) (c : WipeCommand)
    (resDelDesc : ResourceDeleteDescription) (jq : JsonQuery)
    (st : List String × List StrMap) (i : Nat) : List String × List StrMap :=
  match jq.String_ [resDelDesc.Name, strconv.Itoa i, resDelDesc.Id] with
  | some id =>
    let m := match jq.Array [resDelDesc.Name, strconv.Itoa i, "Tags"] with
      | some tagMap => (List.range tagMap.length).foldl (listStuff.tagBody jq resDelDesc.Name i) []
      | none => []
    if checkDelete Compile c resDelDesc.TerraformResourceType id [m] then
      (st.1 ++ [id], st.2 ++ [m])
    else st
  | none => st

/-- `c.listStuff(resDelDesc, r)` from the query object `jq` that lines 426-434
build from `r`. -/
def listStuff (Compile : String → Option Regexp) (c : WipeCommand)
    (resDelDesc : ResourceDeleteDescription) (jq : JsonQuery) : List ResourceSet :=
  match jq.Array [resDelDesc.Name] with
  | some result =>
    let st := (List.range result.length).foldl (listStuff.body Compile c resDelDesc jq) ([], [])
    [{ Type_ := resDelDesc.TerraformResourceType, Ids := st.1, Tags := st.2 }]
  | none => []

/-- `c.deleteKmsAliases(resourceType)`. -/
def deleteKmsAliases (Compile : String → Option Regexp) (c : WipeCommand)
    (resourceType : ResourceDeleteDescription) : List ResourceSet :=
  match c.kmsconn.ListAliases with
  | some res => listStuff Compile c resourceType (jsonq.NewQuery res)
  | none => []

/-! ## Vocabulary of the statements -/

/-- The pattern is a valid regular expression and matches some piece of `s`
(an unanchored match). -/
def Matches (Compile : String → Option Regexp) (pattern s : String) : Prop :=
  ∃ re, Compile pattern = some re ∧
    ∃ pre mid suf, s.data = pre ++ (mid ++ suf) ∧ re.matchAt pre mid suf = true

/-- Some `(tagKey, pattern)` entry of the rule's tag patterns is met by the
candidate's tag map (the first variadic argument, when one is passed): the map
contains `tagKey` and the pattern matches the value. -/
def TagMatches (Compile : String → Option Regexp) (rVal : B) (tags : List StrMap) : Prop :=
  ∃ t, tags.head? = some t ∧
    ∃ kv ∈ rVal.Tags, ∃ tVal, t.get? kv.1 = some tVal ∧ Matches Compile kv.2 tVal

/-- The rule is the sweep-all marker: no id pattern and no tag pattern. -/
def SweepAll (rVal : B) : Prop :=
  rVal.Ids = [] ∧ rVal.Tags = []

/-- The fragment of the pattern syntax used in the examples: literal text
(letters, digits, `-`, `_`, `:`, `/`), optionally anchored by a leading `^` and
a trailing `$`. A pattern outside the fragment has no compiled form here; the
patterns `(` and `[`, which Go rejects, are among them. -/
def literalCompile (pattern : String) : Option Regexp :=
  let cs := pattern.data
  let bol := cs.head? == some '^'
  let cs := if bol then cs.drop 1 else cs
  let eol := cs.getLast? == some '$'
  let cs := if eol then cs.dropLast else cs
  if cs.all (fun ch => ch.isAlphanum || ch == '-' || ch == '_' || ch == ':' || ch == '/') then
    some { matchAt := fun pre mid suf =>
      mid == cs && (!bol || pre.isEmpty) && (!eol || suf.isEmpty) }
  else none

/-- The parents on which `checkDelete`, called with the parent's key and no
tag map, returns true, in discovery order. -/
def matchedBy (Compile : String → Option Regexp) (c : WipeCommand) (resourceType : String)
    {α : Type} (key : α → String) (l : List α) : List α :=
  l.filter fun r => checkDelete Compile c resourceType (key r) []

/-- Ids of the mount targets listed for a file system; none when the listing
fails. -/
def mountTargetsOf (c : WipeCommand) (r : efs.FileSystemDescription) : List String :=
  match c.efsconn.DescribeMountTargets r.FileSystemId with
  | some res => res.MountTargets.map (fun mt => mt.MountTargetId)
  | none => []

/-- Policies listed as attached to a user; none when the listing fails. -/
def attachedUserPoliciesOf (c : WipeCommand) (u : iam.User) : List iam.AttachedPolicy :=
  (c.iamconn.ListAttachedUserPolicies u.UserName).getD []

/-- Policies listed as attached to a role; none when the listing fails. -/
def attachedRolePoliciesOf (c : WipeCommand) (role : iam.Role) : List iam.AttachedPolicy :=
  (c.iamconn.ListAttachedRolePolicies role.RoleName).getD []

/-- Names of the inline policies listed for a role; none when the listing
fails. -/
def rolePoliciesOf (c : WipeCommand) (role : iam.Role) : List String :=
  (c.iamconn.ListRolePolicies role.RoleName).getD []

/-- Attributes of the attachment of a policy, when its entities can be listed. -/
def policyAttachmentOf (c : WipeCommand) (pol : iam.Policy) : Option StrMap :=
  (c.iamconn.ListEntitiesForPolicy pol.Arn).map fun es =>
    [("policy_arn", pol.Arn), ("name", pol.PolicyName),
     ("users", ".".intercalate es.PolicyUsers),
     ("roles", ".".intercalate es.PolicyRoles),
     ("groups", ".".intercalate es.PolicyGroups)]

/-- Record values listed under a hosted zone, when the listing succeeds. -/
def recordsOf (c : WipeCommand) (hostedZoneId : String) : Option (List String) :=
  (c.r53conn.ListResourceRecordSets hostedZoneId).map fun res =>
    res.flatMap fun r => r.ResourceRecords

/-- The instances of a response that are not terminated and on which
`checkDelete`, called with the instance id and the instance's tag map, returns
true, in response order. -/
def matchedInstances (Compile : String → Option Regexp) (c : WipeCommand)
    (resourceType : String) (res : ec2.DescribeInstancesOutput) : List ec2.Instance :=
  (res.Reservations.flatMap fun r => r.Instances).filter fun inst =>
    inst.StateName != "terminated" &&
      checkDelete Compile c resourceType inst.InstanceId [tagMap inst.Tags]

/-- The images on which `checkDelete`, called with the image id and the image's
tag map, returns true, in response order. -/
def matchedImages (Compile : String → Option Regexp) (c : WipeCommand)
    (resourceType : String) (res : ec2.DescribeImagesOutput) : List ec2.Image :=
  res.Images.filter fun r => checkDelete Compile c resourceType r.ImageId [tagMap r.Tags]

/-- The keys whose description can be fetched and whose state is not
`PendingDeletion`, in response order. -/
def liveKeys (c : WipeCommand) (keys : List kms.KeyListEntry) : List kms.KeyListEntry :=
  keys.filter fun r =>
    match c.kmsconn.DescribeKey r.KeyId with
    | some keyState => keyState != "PendingDeletion"
    | none => false

/-- The tag map of item `i` under the array path `name`: empty when the item
has no readable `Tags` array, else built from the entries of that array whose
`Key` and `Value` are both readable as strings, in array order. -/
def itemTags (jq : JsonQuery) (name : String) (i : Nat) : StrMap :=
  match jq.Array [name, strconv.Itoa i, "Tags"] with
  | none => []
  | some tagArr =>
    tagMap ((List.range tagArr.length).filterMap fun j =>
      match jq.String_ [name, strconv.Itoa i, "Tags", strconv.Itoa j, "Key"],
            jq.String_ [name, strconv.Itoa i, "Tags", strconv.Itoa j, "Value"] with
      | some key, some value => some ⟨key, value⟩
      | _, _ => none)

/-- Item `i` under the descriptor's array path as a matched candidate
`(id, tags)`: its identifier field is readable as a string and `checkDelete`
returns true on the id and the item's tag map. -/
def matchedItem (Compile : String → Option Regexp) (c : WipeCommand)
    (resDelDesc : ResourceDeleteDescription) (jq : JsonQuery) (i : Nat) :
    Option (String × StrMap) :=
  match jq.String_ [resDelDesc.Name, strconv.Itoa i, resDelDesc.Id] with
  | some id =>
    if checkDelete Compile c resDelDesc.TerraformResourceType id [itemTags jq resDelDesc.Name i]
    then some (id, itemTags jq resDelDesc.Name i) else none
  | none => none

/-- The tag map of a decoded item: empty when the item has no `Tags` array,
else built from the entries of that array whose `Key` and `Value` are both
strings, in array order. -/
def tagsOfItem (item : JSON) : StrMap :=
  match jsonq.arrayAt item ["Tags"] with
  | none => []
  | some tagArr =>
    tagMap (tagArr.filterMap fun e =>
      match jsonq.stringAt e ["Key"], jsonq.stringAt e ["Value"] with
      | some key, some value => some ⟨key, value⟩
      | _, _ => none)

/-- A decoded item as a matched candidate `(id, tags)`: its identifier field is
a string and `checkDelete` returns true on the id and the item's tag map. -/
def candidateOfItem (Compile : String → Option Regexp) (c : WipeCommand)
    (resDelDesc : ResourceDeleteDescription) (item : JSON) : Option (String × StrMap) :=
  match jsonq.stringAt item [resDelDesc.Id] with
  | some id =>
    if checkDelete Compile c resDelDesc.TerraformResourceType id [tagsOfItem item]
    then some (id, tagsOfItem item) else none
  | none => none

/-- The resource set of type `type` built from the resources `items`: `Ids`
holds their ids; `Tags` is left out, or holds their tag maps index by index;
`Attrs` is left out, or holds their attribute maps index by index. -/
def build (type : String) {α : Type} (items : List α) (id : α → String)
    (tags attrs : Option (α → StrMap)) : ResourceSet where
  Type_ := type
  Ids := items.map id
  Tags := match tags with
    | some f => items.map f
    | none => []
  Attrs := match attrs with
    | some f => items.map f
    | none => []

/-- The role scenario: the rule `ids: [^temp-]` for `aws_iam_role`, the roles
`temp-ci-role` (one attached policy, one inline policy) and `prod-role` (one
attached policy, inline policies not listable). -/
def exampleRoles : WipeCommand where
  in_ := [("aws_iam_role", { Ids := ["^temp-"] })]
  iamconn := {
    ListRoles := some [⟨"temp-ci-role"⟩, ⟨"prod-role"⟩]
    ListAttachedRolePolicies := fun roleName =>
      if roleName == "temp-ci-role" then some [⟨"arn:aws:iam::aws:policy/ReadOnlyAccess"⟩]
      else some [⟨"arn:aws:iam::aws:policy/AdministratorAccess"⟩]
    ListRolePolicies := fun roleName =>
      if roleName == "temp-ci-role" then some ["inline"] else none }

/-- A decoded response with three items under `Vpcs`; the identifier of the
second one is a number. -/
def exampleResponse : List (String × JSON) :=
  [("Vpcs", .arr [
      .obj [("VpcId", .str "vpc-1"),
            ("Tags", .arr [.obj [("Key", .str "env"), ("Value", .str "dev")],
                           .obj [("Key", .str "owner")]])],
      .obj [("VpcId", .num 2)],
      .obj [("VpcId", .str "vpc-3")]])]

/-! ## The match engine -/

theorem mem_cuts (l pre rest : List Char) : (pre, rest) ∈ cuts l ↔ pre ++ rest = l := by
  induction l generalizing pre with
  | nil => simp [cuts]
  | cons a l ih =>
    simp only [cuts, List.mem_cons, List.mem_map, Prod.mk.injEq, Prod.exists]
    constructor
    · rintro (⟨rfl, rfl⟩ | ⟨x, y, hxy, rfl, rfl⟩)
      · rfl
      · simp [(ih x).1 hxy]
    · intro h
      cases pre with
      | nil => left; exact ⟨rfl, by simpa using h⟩
      | cons b pre =>
        right
        simp only [List.cons_append, List.cons.injEq] at h
        exact ⟨pre, rest, (ih pre).2 h.2, by rw [h.1], rfl⟩

theorem Regexp.MatchString_iff (re : Regexp) (s : String) :
    re.MatchString s = true ↔
      ∃ pre mid suf, s.data = pre ++ (mid ++ suf) ∧ re.matchAt pre mid suf = true := by
  simp only [Regexp.MatchString, List.any_eq_true, Prod.exists]
  constructor
  · rintro ⟨pre, rest, h1, mid, suf, h2, h3⟩
    refine ⟨pre, mid, suf, ?_, h3⟩
    rw [(mem_cuts _ _ _).1 h2, (mem_cuts _ _ _).1 h1]
  · rintro ⟨pre, mid, suf, h1, h2⟩
    exact ⟨pre, mid ++ suf, (mem_cuts _ _ _).2 h1.symm, mid, suf, (mem_cuts _ _ _).2 rfl, h2⟩

theorem MatchString_fst_iff (Compile : String → Option Regexp) (pattern s : String) :
    (regexp.MatchString Compile pattern s).1 = true ↔ Matches Compile pattern s := by
  unfold regexp.MatchString Matches
  cases h : Compile pattern with
  | none => simp
  | some re => simp [Regexp.MatchString_iff]

theorem idLoop_iff (Compile : String → Option Regexp) (id : String) (ids : List String) :
    checkDelete.idLoop Compile id ids = true ↔ ∃ p ∈ ids, Matches Compile p id := by
  induction ids with
  | nil => simp [checkDelete.idLoop]
  | cons regex rest ih =>
    simp only [checkDelete.idLoop, List.mem_cons, exists_eq_or_imp, ← MatchString_fst_iff]
    by_cases h : (regexp.MatchString Compile regex id).1 = true
    · simp [h]
    · simp only [h, Bool.false_eq_true, if_false, false_or]
      rw [ih]
      simp only [← MatchString_fst_iff]

theorem tagLoop_iff (Compile : String → Option Regexp) (tags : List StrMap)
    (rtags : List (String × String)) :
    checkDelete.tagLoop Compile tags rtags = true ↔
      ∃ t, tags.head? = some t ∧
        ∃ kv ∈ rtags, ∃ tVal, t.get? kv.1 = some tVal ∧ Matches Compile kv.2 tVal := by
  induction rtags with
  | nil => simp [checkDelete.tagLoop]
  | cons kv rest ih =>
    obtain ⟨k, v⟩ := kv
    cases tags with
    | nil => simpa [checkDelete.tagLoop] using ih
    | cons t ts =>
      simp only [List.head?_cons, Option.some.injEq, exists_eq_left', List.mem_cons,
        exists_eq_or_imp] at ih ⊢
      simp only [checkDelete.tagLoop]
      cases hk : t.get? k with
      | none => simpa using ih
      | some tVal =>
        simp only [Option.some.injEq, exists_eq_left', ← MatchString_fst_iff]
        by_cases h : (regexp.MatchString Compile v tVal).1 = true
        · simp [h]
        · simp only [h, Bool.false_eq_true, if_false, false_or]
          rw [ih]
          simp only [← MatchString_fst_iff]

/-- The result of the loop over `rVal.Tags` does not depend on the order in
which the entries of the map are visited. -/
theorem tagLoop_perm (Compile : String → Option Regexp) (tags : List StrMap)
    (l₁ l₂ : List (String × String)) (h : l₁.Perm l₂) :
    checkDelete.tagLoop Compile tags l₁ = checkDelete.tagLoop Compile tags l₂ := by
  rw [Bool.eq_iff_iff, tagLoop_iff, tagLoop_iff]
  simp only [h.mem_iff]

/-- The result of `checkDelete` for a configured type. -/
theorem checkDelete_iff (Compile : String → Option Regexp) (c : WipeCommand)
    (rType : String) (rVal : B) (id : String) (tags : List StrMap)
    (hcfg : c.in_.lookup rType = some rVal) :
    checkDelete Compile c rType id tags = true ↔
      SweepAll rVal ∨ (∃ p ∈ rVal.Ids, Matches Compile p id) ∨ TagMatches Compile rVal tags := by
  unfold checkDelete SweepAll TagMatches
  rw [hcfg]
  simp only [List.length_eq_zero]
  by_cases h0 : rVal.Ids = [] ∧ rVal.Tags = []
  · simp [h0]
  · simp only [h0, if_false, false_or, ← idLoop_iff, ← tagLoop_iff]
    cases checkDelete.idLoop Compile id rVal.Ids <;>
      cases checkDelete.tagLoop Compile tags rVal.Tags <;> simp

/-- The result of `checkDelete` for a type without a rule. -/
theorem checkDelete_none (Compile : String → Option Regexp) (c : WipeCommand)
    (rType : String) (id : String) (tags : List StrMap)
    (hcfg : c.in_.lookup rType = none) :
    checkDelete Compile c rType id tags = false := by
  unfold checkDelete
  rw [hcfg]

theorem lookup_eq_none_of_no_entry (cfg : List (String × B)) (rType : String)
    (h : ∀ rVal, (rType, rVal) ∉ cfg) : cfg.lookup rType = none := by
  induction cfg with
  | nil => rfl
  | cons e cfg ih =>
    obtain ⟨k, v⟩ := e
    have hk : rType ≠ k := fun hk => h v (by simp [hk])
    have hbeq : (rType == k) = false := by simpa using hk
    simp only [List.lookup, hbeq]
    exact ih (fun rVal hmem => h rVal (List.mem_cons_of_mem _ hmem))

/-- C2: for a resource type with no entry in the rule configuration,
`checkDelete` returns false for every id and every candidate tag map, also when
no tag map is passed. -/
theorem checkDelete_unconfigured (Compile : String → Option Regexp) (c : WipeCommand)
    (rType : String) (hcfg : ∀ rVal, (rType, rVal) ∉ c.in_)
    (id : String) (tags : List StrMap) :
    checkDelete Compile c rType id tags = false :=
  checkDelete_none Compile c rType id tags (lookup_eq_none_of_no_entry c.in_ rType hcfg)

theorem checkDelete_unconfigured_witness :
    (∀ rVal, ("aws_instance", rVal) ∉ ({ in_ := [("aws_vpc", {})] } : WipeCommand).in_) ∧
    checkDelete literalCompile { in_ := [("aws_vpc", {})] } "aws_instance" "i-1" [] = false ∧
    checkDelete literalCompile { in_ := [("aws_vpc", {})] } "aws_instance" "i-1"
      [[("env", "dev")]] = false :=
  ⟨by simp,
   checkDelete_unconfigured literalCompile { in_ := [("aws_vpc", {})] } "aws_instance"
     (by simp) "i-1" [],
   checkDelete_unconfigured literalCompile { in_ := [("aws_vpc", {})] } "aws_instance"
     (by simp) "i-1" [[("env", "dev")]]⟩

/-- C4: for a resource type whose configured rule has an empty id-pattern list
and an empty tag-pattern map (the sweep-all marker), `checkDelete` returns true
for every id and every candidate tag map, or none. -/
theorem checkDelete_sweep_all (Compile : String → Option Regexp) (c : WipeCommand)
    (rType : String) (rVal : B) (hcfg : c.in_.lookup rType = some rVal)
    (hids : rVal.Ids = []) (htags : rVal.Tags = [])
    (id : String) (tags : List StrMap) :
    checkDelete Compile c rType id tags = true :=
  (checkDelete_iff Compile c rType rVal id tags hcfg).2 (Or.inl ⟨hids, htags⟩)

theorem checkDelete_sweep_all_witness :
    ({ in_ := [("aws_vpc", {})] } : WipeCommand).in_.lookup "aws_vpc" = some {} ∧
    checkDelete literalCompile { in_ := [("aws_vpc", {})] } "aws_vpc" "vpc-1" [] = true ∧
    checkDelete literalCompile { in_ := [("aws_vpc", {})] } "aws_vpc" "vpc-2"
      [[("env", "prod")]] = true :=
  ⟨by decide,
   checkDelete_sweep_all literalCompile { in_ := [("aws_vpc", {})] } "aws_vpc" {}
     (by decide) rfl rfl "vpc-1" [],
   checkDelete_sweep_all literalCompile { in_ := [("aws_vpc", {})] } "aws_vpc" {}
     (by decide) rfl rfl "vpc-2" [[("env", "prod")]]⟩

/-- C5: for a configured rule, if some id pattern of the rule is a valid regex
that matches a piece of the id (an unanchored match), `checkDelete` returns
true, whatever the candidate's tags (a map, an empty map, or none passed) and
whatever the rule's tag patterns. -/
theorem checkDelete_id_pattern (Compile : String → Option Regexp) (c : WipeCommand)
    (rType : String) (rVal : B) (hcfg : c.in_.lookup rType = some rVal)
    (id : String) (p : String) (hp : p ∈ rVal.Ids) (re : Regexp)
    (hre : Compile p = some re) (pre mid suf : List Char)
    (hid : id.data = pre ++ (mid ++ suf)) (hm : re.matchAt pre mid suf = true)
    (tags : List StrMap) :
    checkDelete Compile c rType id tags = true :=
  (checkDelete_iff Compile c rType rVal id tags hcfg).2
    (Or.inr (Or.inl ⟨p, hp, re, hre, pre, mid, suf, hid, hm⟩))

theorem checkDelete_id_pattern_witness :
    "temp-ci-role".data = "temp-".data ++ ("ci".data ++ "-role".data) ∧
    checkDelete literalCompile
      { in_ := [("aws_iam_role", { Ids := ["prod", "ci"], Tags := [("env", "^dev$")] })] }
      "aws_iam_role" "temp-ci-role" [] = true ∧
    checkDelete literalCompile
      { in_ := [("aws_iam_role", { Ids := ["prod", "ci"], Tags := [("env", "^dev$")] })] }
      "aws_iam_role" "temp-ci-role" [[("env", "prod")]] = true :=
  ⟨by decide,
   checkDelete_id_pattern literalCompile
     { in_ := [("aws_iam_role", { Ids := ["prod", "ci"], Tags := [("env", "^dev$")] })] }
     "aws_iam_role" { Ids := ["prod", "ci"], Tags := [("env", "^dev$")] } (by decide)
     "temp-ci-role" "ci" (by decide)
     { matchAt := fun pre mid suf =>
         mid == "ci".data && (!false || pre.isEmpty) && (!false || suf.isEmpty) }
     rfl "temp-".data "ci".data "-role".data (by decide) (by decide) [],
   checkDelete_id_pattern literalCompile
     { in_ := [("aws_iam_role", { Ids := ["prod", "ci"], Tags := [("env", "^dev$")] })] }
     "aws_iam_role" { Ids := ["prod", "ci"], Tags := [("env", "^dev$")] } (by decide)
     "temp-ci-role" "ci" (by decide)
     { matchAt := fun pre mid suf =>
         mid == "ci".data && (!false || pre.isEmpty) && (!false || suf.isEmpty) }
     rfl "temp-".data "ci".data "-role".data (by decide) (by decide) [[("env", "prod")]]⟩

/-- C6: for a configured rule that is not the sweep-all marker and a candidate
whose id no id pattern of the rule matches, `checkDelete` returns true exactly
when some `(tagKey, pattern)` entry of the rule's tag patterns has `tagKey` in
the candidate's tag map with a value the pattern matches; so it returns false
for an empty tag map and when no tag map is passed. In the scenario (no id
patterns, tags `env: ^dev$`) candidate `i-1` with `env: dev` is matched,
`i-2` with `env: prod` is not, and the matched set is `[i-1]`. -/
theorem checkDelete_tag_patterns :
    (∀ (Compile : String → Option Regexp) (c : WipeCommand) (rType : String) (rVal : B)
        (id : String) (tags : List StrMap),
        c.in_.lookup rType = some rVal → ¬ SweepAll rVal →
        (∀ p ∈ rVal.Ids, ¬ Matches Compile p id) →
        (checkDelete Compile c rType id tags = true ↔ TagMatches Compile rVal tags) ∧
        (tags = [] ∨ tags.head? = some [] → checkDelete Compile c rType id tags = false)) ∧
    checkDelete literalCompile { in_ := [("aws_instance", { Tags := [("env", "^dev$")] })] }
      "aws_instance" "i-1" [[("env", "dev")]] = true ∧
    checkDelete literalCompile { in_ := [("aws_instance", { Tags := [("env", "^dev$")] })] }
      "aws_instance" "i-2" [[("env", "prod")]] = false ∧
    deleteInstances literalCompile
      { in_ := [("aws_instance", { Tags := [("env", "^dev$")] })],
        ec2conn := { DescribeInstances := some { Reservations := [{ Instances :=
          [{ InstanceId := "i-1", StateName := "running", Tags := [⟨"env", "dev"⟩] },
           { InstanceId := "i-2", StateName := "running", Tags := [⟨"env", "prod"⟩] }] }] } } }
      "aws_instance" =
      [{ Type_ := "aws_instance", Ids := ["i-1"], Tags := [[("env", "dev")]] }] := by
  refine ⟨?_, by decide, by decide, by decide⟩
  intro Compile c rType rVal id tags hcfg hnot hid
  have key : checkDelete Compile c rType id tags = true ↔ TagMatches Compile rVal tags := by
    rw [checkDelete_iff Compile c rType rVal id tags hcfg]
    constructor
    · rintro (h | ⟨p, hp, hm⟩ | h)
      · exact absurd h hnot
      · exact absurd hm (hid p hp)
      · exact h
    · exact fun h => Or.inr (Or.inr h)
  refine ⟨key, ?_⟩
  intro h
  rw [Bool.eq_false_iff]
  intro ht
  obtain ⟨t, hhead, kv, _, tVal, hget, _⟩ := key.1 ht
  rcases h with h | h
  · rw [h] at hhead
    simp at hhead
  · rw [h] at hhead
    cases hhead
    simp [StrMap.get?] at hget

theorem checkDelete_tag_patterns_witness :
    (checkDelete literalCompile
        { in_ := [("aws_instance", { Tags := [("env", "^dev$")] })] }
        "aws_instance" "i-1" [[("env", "dev")]] = true ↔
      TagMatches literalCompile { Tags := [("env", "^dev$")] } [[("env", "dev")]]) ∧
    checkDelete literalCompile
        { in_ := [("aws_instance", { Tags := [("env", "^dev$")] })] }
        "aws_instance" "i-1" [] = false :=
  ⟨(checkDelete_tag_patterns.1 literalCompile
      { in_ := [("aws_instance", { Tags := [("env", "^dev$")] })] }
      "aws_instance" { Tags := [("env", "^dev$")] } "i-1" [[("env", "dev")]]
      (by decide) (by simp [SweepAll]) (by simp)).1,
   (checkDelete_tag_patterns.1 literalCompile
      { in_ := [("aws_instance", { Tags := [("env", "^dev$")] })] }
      "aws_instance" { Tags := [("env", "^dev$")] } "i-1" []
      (by decide) (by simp [SweepAll]) (by simp)).2 (Or.inl rfl)⟩

/-- C9: for a configured rule that contains a pattern which is not a valid
regex: `regexp.MatchString` reports no match for that pattern on every text
(with the error, which `checkDelete` drops), and the other patterns are still
evaluated: `checkDelete` returns true exactly when the rule is the sweep-all
marker (which such a rule is not), or some valid id pattern matches the id, or
some valid tag pattern matches the value of its tag in the candidate's tag
map. -/
theorem checkDelete_malformed_pattern (Compile : String → Option Regexp) (c : WipeCommand)
    (rType : String) (rVal : B) (hcfg : c.in_.lookup rType = some rVal)
    (bad : String) (hbad : bad ∈ rVal.Ids ∨ bad ∈ rVal.Tags.map Prod.snd)
    (hinvalid : Compile bad = none) (id : String) (tags : List StrMap) :
    (∀ s, regexp.MatchString Compile bad s = (false, true)) ∧
    (∀ s, ¬ Matches Compile bad s) ∧
    ¬ SweepAll rVal ∧
    (checkDelete Compile c rType id tags = true ↔
      SweepAll rVal ∨ (∃ p ∈ rVal.Ids, Matches Compile p id) ∨
        TagMatches Compile rVal tags) := by
  refine ⟨?_, ?_, ?_, checkDelete_iff Compile c rType rVal id tags hcfg⟩
  · intro s
    simp [regexp.MatchString, hinvalid]
  · rintro s ⟨re, hre, _⟩
    rw [hinvalid] at hre
    cases hre
  · rintro ⟨h1, h2⟩
    rw [h1, h2] at hbad
    simp at hbad

theorem checkDelete_malformed_pattern_witness :
    literalCompile "(" = none ∧
    checkDelete literalCompile
      { in_ := [("aws_iam_role", { Ids := ["(", "^temp-"], Tags := [("env", "[")] })] }
      "aws_iam_role" "temp-ci-role" [[("env", "dev")]] = true ∧
    checkDelete literalCompile
      { in_ := [("aws_iam_role", { Ids := ["(", "^temp-"], Tags := [("env", "[")] })] }
      "aws_iam_role" "prod-role" [[("env", "dev")]] = false :=
  ⟨rfl,
   ((checkDelete_malformed_pattern literalCompile
      { in_ := [("aws_iam_role", { Ids := ["(", "^temp-"], Tags := [("env", "[")] })] }
      "aws_iam_role" { Ids := ["(", "^temp-"], Tags := [("env", "[")] } (by decide)
      "(" (Or.inl (by decide)) rfl "temp-ci-role" [[("env", "dev")]]).2.2.2).2
      (Or.inr (Or.inl ⟨"^temp-", by decide,
        (MatchString_fst_iff literalCompile "^temp-" "temp-ci-role").1 (by decide)⟩)),
   by decide⟩

/-! ## Loops that append to their accumulators -/

theorem foldl_append_flatMap {α β : Type} (F : α → List β) (l : List α) (acc : List β) :
    l.foldl (fun acc a => acc ++ F a) acc = acc ++ l.flatMap F := by
  induction l generalizing acc with
  | nil => simp
  | cons a l ih => simp [ih, List.flatMap_cons, List.append_assoc]

theorem foldl_append_map {α β : Type} (f : α → β) (l : List α) (acc : List β) :
    l.foldl (fun acc a => acc ++ [f a]) acc = acc ++ l.map f := by
  induction l generalizing acc with
  | nil => simp
  | cons a l ih => simp [ih, List.append_assoc]

theorem foldl_append_pair {α β γ : Type} (F : α → List β) (G : α → List γ)
    (l : List α) (st : List β × List γ) :
    l.foldl (fun st a => (st.1 ++ F a, st.2 ++ G a)) st =
      (st.1 ++ l.flatMap F, st.2 ++ l.flatMap G) := by
  induction l generalizing st with
  | nil => simp
  | cons a l ih => simp [ih, List.flatMap_cons, List.append_assoc]

theorem foldl_append_triple {α β γ δ : Type} (F : α → List β) (G : α → List γ)
    (H : α → List δ) (l : List α) (st : List β × List γ × List δ) :
    l.foldl (fun st a => (st.1 ++ F a, st.2.1 ++ G a, st.2.2 ++ H a)) st =
      (st.1 ++ l.flatMap F, st.2.1 ++ l.flatMap G, st.2.2 ++ l.flatMap H) := by
  induction l generalizing st with
  | nil => simp
  | cons a l ih => simp [ih, List.flatMap_cons, List.append_assoc]

theorem foldl_append_quad {α β γ δ ε : Type} (F : α → List β) (G : α → List γ)
    (H : α → List δ) (K : α → List ε) (l : List α)
    (st : List β × List γ × List δ × List ε) :
    l.foldl (fun st a => (st.1 ++ F a, st.2.1 ++ G a, st.2.2.1 ++ H a, st.2.2.2 ++ K a)) st =
      (st.1 ++ l.flatMap F, st.2.1 ++ l.flatMap G, st.2.2.1 ++ l.flatMap H,
       st.2.2.2 ++ l.flatMap K) := by
  induction l generalizing st with
  | nil => simp
  | cons a l ih => simp [ih, List.flatMap_cons, List.append_assoc]

theorem flatMap_ite {α β : Type} (p : α → Bool) (F : α → List β) (l : List α) :
    l.flatMap (fun a => if p a = true then F a else []) = (l.filter p).flatMap F := by
  induction l with
  | nil => rfl
  | cons a l ih =>
    by_cases h : p a = true
    · simp [List.flatMap_cons, List.filter_cons, h, ih]
    · simp [List.flatMap_cons, List.filter_cons, h, ih]

theorem flatMap_singleton_map {α β : Type} (f : α → β) (l : List α) :
    l.flatMap (fun a => [f a]) = l.map f := by
  induction l with
  | nil => rfl
  | cons a l ih => simp [List.flatMap_cons, ih]

theorem flatMap_ite_singleton {α β : Type} (p : α → Bool) (f : α → β) (l : List α) :
    l.flatMap (fun a => if p a = true then [f a] else []) = (l.filter p).map f := by
  rw [flatMap_ite, flatMap_singleton_map]

/-! ## Closed forms of the delete procedures -/

theorem deleteRoute53Record_fold (Compile : String → Option Regexp) (c : WipeCommand)
    (resourceType : String) (l : List String) (ids : List String) :
    l.foldl (deleteRoute53Record.body Compile c resourceType) ids =
      ids ++ l.filter (fun rr => checkDelete Compile c resourceType rr []) := by
  induction l generalizing ids with
  | nil => simp
  | cons rr l ih =>
    rw [List.foldl_cons, ih]
    by_cases hc : checkDelete Compile c resourceType rr [] = true
    · simp [deleteRoute53Record.body, hc, List.filter_cons]
    · simp [deleteRoute53Record.body, hc, List.filter_cons]

theorem deleteRoute53Record_eq (Compile : String → Option Regexp) (c : WipeCommand)
    (resourceType : String) (hostedZoneId : String) :
    deleteRoute53Record Compile c resourceType hostedZoneId =
      match recordsOf c hostedZoneId with
      | some values =>
        [{ Type_ := resourceType,
           Ids := values.filter fun rr => checkDelete Compile c resourceType rr [] }]
      | none => [] := by
  unfold deleteRoute53Record recordsOf
  cases c.r53conn.ListResourceRecordSets hostedZoneId with
  | none => rfl
  | some res =>
    simp only [Option.map_some']
    congr 2
    have key : ∀ (l : List route53.ResourceRecordSet) (ids : List String),
        l.foldl (fun ids r =>
          r.ResourceRecords.foldl (deleteRoute53Record.body Compile c resourceType) ids) ids =
        ids ++ (l.flatMap fun r => r.ResourceRecords).filter
          (fun rr => checkDelete Compile c resourceType rr []) := by
      intro l
      induction l with
      | nil => simp
      | cons r l ih =>
        intro ids
        rw [List.foldl_cons, ih, deleteRoute53Record_fold]
        simp [List.flatMap_cons, List.append_assoc]
    simpa using key res []

theorem deleteRoute53Zone_fold (Compile : String → Option Regexp) (c : WipeCommand)
    (resourceType : String) (l : List route53.HostedZone)
    (st : List ResourceSet × List String × List StrMap) :
    l.foldl (deleteRoute53Zone.body Compile c resourceType) st =
      (st.1 ++ (matchedBy Compile c resourceType (fun hz => hz.Id) l).flatMap
          (fun hz => deleteRoute53Record Compile c resourceType hz.Id),
       st.2.1 ++ (matchedBy Compile c resourceType (fun hz => hz.Id) l).map (fun hz => hz.Id),
       st.2.2 ++ (matchedBy Compile c resourceType (fun hz => hz.Id) l).map
          (fun hz => [("force_destroy", "true"), ("name", hz.Name)])) := by
  induction l generalizing st with
  | nil => simp [matchedBy]
  | cons hz l ih =>
    rw [List.foldl_cons, ih]
    by_cases hc : checkDelete Compile c resourceType hz.Id [] = true
    · simp [deleteRoute53Zone.body, matchedBy, hc, List.filter_cons, List.flatMap_cons,
        List.append_assoc]
    · simp [deleteRoute53Zone.body, matchedBy, hc, List.filter_cons]

theorem deleteRoute53Zone_eq (Compile : String → Option Regexp) (c : WipeCommand)
    (resourceType : String) (res : List route53.HostedZone)
    (h : c.r53conn.ListHostedZones = some res) :
    deleteRoute53Zone Compile c resourceType =
      (matchedBy Compile c resourceType (fun hz => hz.Id) res).flatMap
          (fun hz => deleteRoute53Record Compile c resourceType hz.Id) ++
        [{ Type_ := resourceType,
           Ids := (matchedBy Compile c resourceType (fun hz => hz.Id) res).map (fun hz => hz.Id),
           Attrs := (matchedBy Compile c resourceType (fun hz => hz.Id) res).map
             (fun hz => [("force_destroy", "true"), ("name", hz.Name)]) }] := by
  unfold deleteRoute53Zone
  rw [h]
  simp [deleteRoute53Zone_fold]

theorem deleteEfsFileSystem_fold (Compile : String → Option Regexp) (c : WipeCommand)
    (resourceType : String) (l : List efs.FileSystemDescription)
    (st : List String × List String) :
    l.foldl (deleteEfsFileSystem.body Compile c resourceType) st =
      (st.1 ++ (matchedBy Compile c resourceType (fun r => r.Name) l).map
          (fun r => r.FileSystemId),
       st.2 ++ (matchedBy Compile c resourceType (fun r => r.Name) l).flatMap
          (mountTargetsOf c)) := by
  induction l generalizing st with
  | nil => simp [matchedBy]
  | cons r l ih =>
    rw [List.foldl_cons, ih]
    by_cases hc : checkDelete Compile c resourceType r.Name [] = true
    · cases hm : c.efsconn.DescribeMountTargets r.FileSystemId <;>
        simp [deleteEfsFileSystem.body, matchedBy, hc, hm, mountTargetsOf, foldl_append_map,
          List.filter_cons, List.flatMap_cons, List.append_assoc]
    · simp [deleteEfsFileSystem.body, matchedBy, hc, List.filter_cons]

theorem deleteEfsFileSystem_eq (Compile : String → Option Regexp) (c : WipeCommand)
    (resourceType : String) (res : efs.DescribeFileSystemsOutput)
    (h : c.efsconn.DescribeFileSystems = some res) :
    deleteEfsFileSystem Compile c resourceType =
      [{ Type_ := "aws_efs_mount_target",
         Ids := (matchedBy Compile c resourceType (fun r => r.Name) res.FileSystems).flatMap
           (mountTargetsOf c) },
       { Type_ := resourceType,
         Ids := (matchedBy Compile c resourceType (fun r => r.Name) res.FileSystems).map
           (fun r => r.FileSystemId) }] := by
  unfold deleteEfsFileSystem
  rw [h]
  simp [deleteEfsFileSystem_fold]

theorem deleteInstances_inner (Compile : String → Option Regexp) (c : WipeCommand)
    (resourceType : String) (l : List ec2.Instance) (st : List String × List StrMap) :
    l.foldl (deleteInstances.body Compile c resourceType) st =
      (st.1 ++ (l.filter fun inst => inst.StateName != "terminated" &&
          checkDelete Compile c resourceType inst.InstanceId [tagMap inst.Tags]).map
            (fun inst => inst.InstanceId),
       st.2 ++ (l.filter fun inst => inst.StateName != "terminated" &&
          checkDelete Compile c resourceType inst.InstanceId [tagMap inst.Tags]).map
            (fun inst => tagMap inst.Tags)) := by
  induction l generalizing st with
  | nil => simp
  | cons inst l ih =>
    rw [List.foldl_cons, ih]
    by_cases hs : inst.StateName = "terminated"
    · simp [deleteInstances.body, hs, List.filter_cons]
    · by_cases hc : checkDelete Compile c resourceType inst.InstanceId [tagMap inst.Tags] = true
      · simp [deleteInstances.body, hs, hc, List.filter_cons, List.append_assoc]
      · simp [deleteInstances.body, hs, hc, List.filter_cons]

theorem deleteInstances_fold (Compile : String → Option Regexp) (c : WipeCommand)
    (resourceType : String) (l : List ec2.Reservation) (st : List String × List StrMap) :
    l.foldl (fun st r => r.Instances.foldl (deleteInstances.body Compile c resourceType) st) st =
      (st.1 ++ (matchedInstances Compile c resourceType ⟨l⟩).map (fun inst => inst.InstanceId),
       st.2 ++ (matchedInstances Compile c resourceType ⟨l⟩).map
          (fun inst => tagMap inst.Tags)) := by
  induction l generalizing st with
  | nil => simp [matchedInstances]
  | cons r l ih =>
    rw [List.foldl_cons, ih, deleteInstances_inner]
    simp [matchedInstances, List.flatMap_cons, List.append_assoc]

theorem deleteInstances_eq (Compile : String → Option Regexp) (c : WipeCommand)
    (resourceType : String) (res : ec2.DescribeInstancesOutput)
    (h : c.ec2conn.DescribeInstances = some res) :
    deleteInstances Compile c resourceType =
      [{ Type_ := resourceType,
         Ids := (matchedInstances Compile c resourceType res).map (fun inst => inst.InstanceId),
         Tags := (matchedInstances Compile c resourceType res).map
           (fun inst => tagMap inst.Tags) }] := by
  unfold deleteInstances
  rw [h]
  simp [deleteInstances_fold]

theorem deleteAmis_fold (Compile : String → Option Regexp) (c : WipeCommand)
    (resourceType : String) (l : List ec2.Image) (st : List String × List StrMap) :
    l.foldl (deleteAmis.body Compile c resourceType) st =
      (st.1 ++ (matchedImages Compile c resourceType ⟨l⟩).map (fun r => r.ImageId),
       st.2 ++ (matchedImages Compile c resourceType ⟨l⟩).map (fun r => tagMap r.Tags)) := by
  induction l generalizing st with
  | nil => simp [matchedImages]
  | cons r l ih =>
    rw [List.foldl_cons, ih]
    by_cases hc : checkDelete Compile c resourceType r.ImageId [tagMap r.Tags] = true
    · simp [deleteAmis.body, matchedImages, hc, List.filter_cons, List.append_assoc]
    · simp [deleteAmis.body, matchedImages, hc, List.filter_cons]

theorem deleteAmis_eq (Compile : String → Option Regexp) (c : WipeCommand)
    (resourceType : String) (res : ec2.DescribeImagesOutput)
    (h : c.ec2conn.DescribeImages = some res) :
    deleteAmis Compile c resourceType =
      [{ Type_ := resourceType,
         Ids := (matchedImages Compile c resourceType res).map (fun r => r.ImageId),
         Tags := (matchedImages Compile c resourceType res).map (fun r => tagMap r.Tags) }] := by
  unfold deleteAmis
  rw [h]
  simp [deleteAmis_fold]

theorem foldl_append_map_pair {α β γ : Type} (f : α → β) (g : α → γ) (l : List α)
    (st : List β × List γ) :
    l.foldl (fun st a => (st.1 ++ [f a], st.2 ++ [g a])) st =
      (st.1 ++ l.map f, st.2 ++ l.map g) := by
  induction l generalizing st with
  | nil => simp
  | cons a l ih => simp [ih, List.append_assoc]

theorem deleteIamUser_fold (Compile : String → Option Regexp) (c : WipeCommand)
    (resourceType : String) (l : List iam.User)
    (st : List String × List String × List StrMap × List StrMap) :
    l.foldl (deleteIamUser.body Compile c resourceType) st =
      (st.1 ++ (matchedBy Compile c resourceType (fun u => u.UserName) l).map
          (fun u => u.UserName),
       st.2.1 ++ (matchedBy Compile c resourceType (fun u => u.UserName) l).flatMap
          (fun u => (attachedUserPoliciesOf c u).map fun upol => upol.PolicyArn),
       st.2.2.1 ++ (matchedBy Compile c resourceType (fun u => u.UserName) l).map
          (fun _ => [("force_destroy", "true")]),
       st.2.2.2 ++ (matchedBy Compile c resourceType (fun u => u.UserName) l).flatMap
          (fun u => (attachedUserPoliciesOf c u).map fun upol =>
            [("user", u.UserName), ("policy_arn", upol.PolicyArn)])) := by
  induction l generalizing st with
  | nil => simp [matchedBy]
  | cons u l ih =>
    rw [List.foldl_cons, ih]
    by_cases hc : checkDelete Compile c resourceType u.UserName [] = true
    · cases hm : c.iamconn.ListAttachedUserPolicies u.UserName <;>
        simp [deleteIamUser.body, matchedBy, hc, hm, attachedUserPoliciesOf,
          foldl_append_map_pair, List.filter_cons, List.flatMap_cons, List.append_assoc]
    · simp [deleteIamUser.body, matchedBy, hc, List.filter_cons]

theorem deleteIamUser_eq (Compile : String → Option Regexp) (c : WipeCommand)
    (resourceType : String) (res : List iam.User) (h : c.iamconn.ListUsers = some res) :
    deleteIamUser Compile c resourceType =
      [{ Type_ := "aws_iam_user_policy_attachment",
         Ids := (matchedBy Compile c resourceType (fun u => u.UserName) res).flatMap
           (fun u => (attachedUserPoliciesOf c u).map fun upol => upol.PolicyArn),
         Attrs := (matchedBy Compile c resourceType (fun u => u.UserName) res).flatMap
           (fun u => (attachedUserPoliciesOf c u).map fun upol =>
             [("user", u.UserName), ("policy_arn", upol.PolicyArn)]) },
       { Type_ := resourceType,
         Ids := (matchedBy Compile c resourceType (fun u => u.UserName) res).map
           (fun u => u.UserName),
         Attrs := (matchedBy Compile c resourceType (fun u => u.UserName) res).map
           (fun _ => [("force_destroy", "true")]) }] := by
  unfold deleteIamUser
  rw [h]
  simp [deleteIamUser_fold]

theorem deleteIamPolicy_fold (Compile : String → Option Regexp) (c : WipeCommand)
    (resourceType : String) (l : List iam.Policy)
    (st : List String × List String × List StrMap) :
    l.foldl (deleteIamPolicy.body Compile c resourceType) st =
      (st.1 ++ (matchedBy Compile c resourceType (fun pol => pol.Arn) l).map
          (fun pol => pol.Arn),
       st.2.1 ++ (matchedBy Compile c resourceType (fun pol => pol.Arn) l).filterMap
          (fun pol => (policyAttachmentOf c pol).map fun _ => pol.Arn),
       st.2.2 ++ (matchedBy Compile c resourceType (fun pol => pol.Arn) l).filterMap
          (policyAttachmentOf c)) := by
  induction l generalizing st with
  | nil => simp [matchedBy]
  | cons pol l ih =>
    rw [List.foldl_cons, ih]
    by_cases hc : checkDelete Compile c resourceType pol.Arn [] = true
    · cases hm : c.iamconn.ListEntitiesForPolicy pol.Arn <;>
        simp [deleteIamPolicy.body, matchedBy, hc, hm, policyAttachmentOf, foldl_append_map,
          List.filter_cons, List.filterMap_cons, List.append_assoc]
    · simp [deleteIamPolicy.body, matchedBy, hc, List.filter_cons]

theorem deleteIamPolicy_eq (Compile : String → Option Regexp) (c : WipeCommand)
    (resourceType : String) (res : List iam.Policy) (h : c.iamconn.ListPolicies = some res) :
    deleteIamPolicy Compile c resourceType =
      [{ Type_ := "aws_iam_policy_attachment",
         Ids := (matchedBy Compile c resourceType (fun pol => pol.Arn) res).filterMap
           (fun pol => (policyAttachmentOf c pol).map fun _ => pol.Arn),
         Attrs := (matchedBy Compile c resourceType (fun pol => pol.Arn) res).filterMap
           (policyAttachmentOf c) },
       { Type_ := resourceType,
         Ids := (matchedBy Compile c resourceType (fun pol => pol.Arn) res).map
           (fun pol => pol.Arn) }] := by
  unfold deleteIamPolicy
  rw [h]
  simp [deleteIamPolicy_fold]

theorem deleteIamRole_fold (Compile : String → Option Regexp) (c : WipeCommand)
    (resourceType : String) (l : List iam.Role)
    (st : List String × List String × List StrMap × List String) :
    l.foldl (deleteIamRole.body Compile c resourceType) st =
      (st.1 ++ (matchedBy Compile c resourceType (fun role => role.RoleName) l).map
          (fun role => role.RoleName),
       st.2.1 ++ (matchedBy Compile c resourceType (fun role => role.RoleName) l).flatMap
          (fun role => (attachedRolePoliciesOf c role).map fun rpol => rpol.PolicyArn),
       st.2.2.1 ++ (matchedBy Compile c resourceType (fun role => role.RoleName) l).flatMap
          (fun role => (attachedRolePoliciesOf c role).map fun rpol =>
            [("role", role.RoleName), ("policy_arn", rpol.PolicyArn)]),
       st.2.2.2 ++ (matchedBy Compile c resourceType (fun role => role.RoleName) l).flatMap
          (fun role => (rolePoliciesOf c role).map fun rp => role.RoleName ++ ":" ++ rp)) := by
  induction l generalizing st with
  | nil => simp [matchedBy]
  | cons role l ih =>
    rw [List.foldl_cons, ih]
    by_cases hc : checkDelete Compile c resourceType role.RoleName [] = true
    · cases hm : c.iamconn.ListAttachedRolePolicies role.RoleName <;>
        cases hp : c.iamconn.ListRolePolicies role.RoleName <;>
        simp [deleteIamRole.body, matchedBy, hc, hm, hp, attachedRolePoliciesOf,
          rolePoliciesOf, foldl_append_map_pair, foldl_append_map, List.filter_cons,
          List.flatMap_cons, List.append_assoc]
    · simp [deleteIamRole.body, matchedBy, hc, List.filter_cons]

theorem deleteIamRole_eq (Compile : String → Option Regexp) (c : WipeCommand)
    (resourceType : String) (res : List iam.Role) (h : c.iamconn.ListRoles = some res) :
    deleteIamRole Compile c resourceType =
      [{ Type_ := "aws_iam_role_policy_attachment",
         Ids := (matchedBy Compile c resourceType (fun role => role.RoleName) res).flatMap
           (fun role => (attachedRolePoliciesOf c role).map fun rpol => rpol.PolicyArn),
         Attrs := (matchedBy Compile c resourceType (fun role => role.RoleName) res).flatMap
           (fun role => (attachedRolePoliciesOf c role).map fun rpol =>
             [("role", role.RoleName), ("policy_arn", rpol.PolicyArn)]) },
       { Type_ := "aws_iam_role_policy",
         Ids := (matchedBy Compile c resourceType (fun role => role.RoleName) res).flatMap
           (fun role => (rolePoliciesOf c role).map fun rp => role.RoleName ++ ":" ++ rp) },
       { Type_ := resourceType,
         Ids := (matchedBy Compile c resourceType (fun role => role.RoleName) res).map
           (fun role => role.RoleName) }] := by
  unfold deleteIamRole
  rw [h]
  simp [deleteIamRole_fold]

theorem deleteKmsKeys_fold (c : WipeCommand) (l : List kms.KeyListEntry)
    (st : List String × List StrMap) :
    l.foldl (deleteKmsKeys.body c) st =
      (st.1 ++ (liveKeys c l).map (fun r => r.KeyArn),
       st.2 ++ (liveKeys c l).map (fun r => [("key_id", r.KeyId)])) := by
  induction l generalizing st with
  | nil => simp [liveKeys]
  | cons r l ih =>
    rw [List.foldl_cons, ih]
    cases hd : c.kmsconn.DescribeKey r.KeyId with
    | none => simp [deleteKmsKeys.body, liveKeys, hd, List.filter_cons]
    | some keyState =>
      by_cases hs : keyState = "PendingDeletion"
      · simp [deleteKmsKeys.body, liveKeys, hd, hs, List.filter_cons]
      · simp [deleteKmsKeys.body, liveKeys, hd, hs, List.filter_cons, List.append_assoc]

theorem deleteKmsKeys_eq (c : WipeCommand) (resourceType : String)
    (res : List kms.KeyListEntry) (h : c.kmsconn.ListKeys = some res) :
    deleteKmsKeys c resourceType =
      [{ Type_ := resourceType, Ids := (liveKeys c res).map (fun r => r.KeyArn) }] := by
  unfold deleteKmsKeys
  rw [h]
  simp [deleteKmsKeys_fold]

theorem listStuff_tagLoop (jq : JsonQuery) (name : String) (i : Nat) (l : List Nat)
    (m : StrMap) :
    l.foldl (listStuff.tagBody jq name i) m =
      (l.filterMap fun j =>
        match jq.String_ [name, strconv.Itoa i, "Tags", strconv.Itoa j, "Key"],
              jq.String_ [name, strconv.Itoa i, "Tags", strconv.Itoa j, "Value"] with
        | some key, some value => some (⟨key, value⟩ : Tag)
        | _, _ => none).foldl (fun m t => m.set t.Key t.Value) m := by
  induction l generalizing m with
  | nil => rfl
  | cons j l ih =>
    rw [List.foldl_cons, ih]
    cases hk : jq.String_ [name, strconv.Itoa i, "Tags", strconv.Itoa j, "Key"] <;>
      cases hv : jq.String_ [name, strconv.Itoa i, "Tags", strconv.Itoa j, "Value"] <;>
      simp [listStuff.tagBody, hk, hv, List.filterMap_cons]

theorem listStuff_itemTags (jq : JsonQuery) (name : String) (i : Nat) :
    (match jq.Array [name, strconv.Itoa i, "Tags"] with
      | some tagMap => (List.range tagMap.length).foldl (listStuff.tagBody jq name i) []
      | none => []) = itemTags jq name i := by
  unfold itemTags
  cases jq.Array [name, strconv.Itoa i, "Tags"] with
  | none => rfl
  | some tagArr => simp only [listStuff_tagLoop, tagMap]

theorem listStuff_fold (Compile : String → Option Regexp) (c : WipeCommand)
    (resDelDesc : ResourceDeleteDescription) (jq : JsonQuery) (l : List Nat)
    (st : List String × List StrMap) :
    l.foldl (listStuff.body Compile c resDelDesc jq) st =
      (st.1 ++ (l.filterMap (matchedItem Compile c resDelDesc jq)).map Prod.fst,
       st.2 ++ (l.filterMap (matchedItem Compile c resDelDesc jq)).map Prod.snd) := by
  induction l generalizing st with
  | nil => simp
  | cons i l ih =>
    rw [List.foldl_cons, ih]
    have hb : listStuff.body Compile c resDelDesc jq st i =
        match matchedItem Compile c resDelDesc jq i with
        | some cand => (st.1 ++ [cand.1], st.2 ++ [cand.2])
        | none => st := by
      unfold listStuff.body matchedItem
      cases jq.String_ [resDelDesc.Name, strconv.Itoa i, resDelDesc.Id] with
      | none => rfl
      | some id =>
        simp only [listStuff_itemTags]
        by_cases hc : checkDelete Compile c resDelDesc.TerraformResourceType id
            [itemTags jq resDelDesc.Name i] = true
        · simp [hc]
        · simp [hc]
    rw [hb]
    cases hmi : matchedItem Compile c resDelDesc jq i with
    | none => simp [List.filterMap_cons, hmi]
    | some cand => simp [List.filterMap_cons, hmi, List.append_assoc]

theorem listStuff_eq (Compile : String → Option Regexp) (c : WipeCommand)
    (resDelDesc : ResourceDeleteDescription) (jq : JsonQuery) (result : List JSON)
    (h : jq.Array [resDelDesc.Name] = some result) :
    listStuff Compile c resDelDesc jq =
      [{ Type_ := resDelDesc.TerraformResourceType,
         Ids := ((List.range result.length).filterMap
           (matchedItem Compile c resDelDesc jq)).map Prod.fst,
         Tags := ((List.range result.length).filterMap
           (matchedItem Compile c resDelDesc jq)).map Prod.snd }] := by
  unfold listStuff
  rw [h]
  simp [listStuff_fold]

theorem listStuff_none (Compile : String → Option Regexp) (c : WipeCommand)
    (resDelDesc : ResourceDeleteDescription) (jq : JsonQuery)
    (h : jq.Array [resDelDesc.Name] = none) :
    listStuff Compile c resDelDesc jq = [] := by
  unfold listStuff
  rw [h]

/-! ## Order of the calls to `deleteResources` -/

/-- C1: in each delete procedure with dependents, when the parent listing
fails no call to `deleteResources` is made; otherwise the calls are the calls
for the dependent sets (mount targets; user policy attachments; policy
attachments; role policy attachments, then role policies; one record set per
matched zone whose records could be listed) followed by the call for the
parent's own set, which is the last one. -/
theorem dependents_before_parent (Compile : String → Option Regexp) (c : WipeCommand)
    (resourceType : String) :
    (match c.efsconn.DescribeFileSystems with
      | none => deleteEfsFileSystem Compile c resourceType = []
      | some res => ∃ mt,
          deleteEfsFileSystem Compile c resourceType =
            [mt] ++ [{ Type_ := resourceType,
                       Ids := (matchedBy Compile c resourceType (fun r => r.Name)
                         res.FileSystems).map (fun r => r.FileSystemId) }] ∧
          mt.Type_ = "aws_efs_mount_target") ∧
    (match c.iamconn.ListUsers with
      | none => deleteIamUser Compile c resourceType = []
      | some res => ∃ att,
          deleteIamUser Compile c resourceType =
            [att] ++ [{ Type_ := resourceType,
                        Ids := (matchedBy Compile c resourceType (fun u => u.UserName)
                          res).map (fun u => u.UserName),
                        Attrs := (matchedBy Compile c resourceType (fun u => u.UserName)
                          res).map (fun _ => [("force_destroy", "true")]) }] ∧
          att.Type_ = "aws_iam_user_policy_attachment") ∧
    (match c.iamconn.ListPolicies with
      | none => deleteIamPolicy Compile c resourceType = []
      | some res => ∃ att,
          deleteIamPolicy Compile c resourceType =
            [att] ++ [{ Type_ := resourceType,
                        Ids := (matchedBy Compile c resourceType (fun pol => pol.Arn)
                          res).map (fun pol => pol.Arn) }] ∧
          att.Type_ = "aws_iam_policy_attachment") ∧
    (match c.iamconn.ListRoles with
      | none => deleteIamRole Compile c resourceType = []
      | some res => ∃ att pols,
          deleteIamRole Compile c resourceType =
            [att, pols] ++ [{ Type_ := resourceType,
                              Ids := (matchedBy Compile c resourceType
                                (fun role => role.RoleName) res).map
                                  (fun role => role.RoleName) }] ∧
          att.Type_ = "aws_iam_role_policy_attachment" ∧
          pols.Type_ = "aws_iam_role_policy") ∧
    (match c.r53conn.ListHostedZones with
      | none => deleteRoute53Zone Compile c resourceType = []
      | some res => ∃ records,
          deleteRoute53Zone Compile c resourceType =
            records ++ [{ Type_ := resourceType,
                          Ids := (matchedBy Compile c resourceType (fun hz => hz.Id)
                            res).map (fun hz => hz.Id),
                          Attrs := (matchedBy Compile c resourceType (fun hz => hz.Id)
                            res).map
                              (fun hz => [("force_destroy", "true"), ("name", hz.Name)]) }] ∧
          records = (matchedBy Compile c resourceType (fun hz => hz.Id) res).flatMap
            (fun hz => deleteRoute53Record Compile c resourceType hz.Id) ∧
          ∀ d ∈ records, ∃ hz ∈ res, checkDelete Compile c resourceType hz.Id [] = true ∧
            deleteRoute53Record Compile c resourceType hz.Id = [d]) := by
  refine ⟨?_, ?_, ?_, ?_, ?_⟩
  · cases h : c.efsconn.DescribeFileSystems with
    | none => simp [deleteEfsFileSystem, h]
    | some res => exact ⟨_, deleteEfsFileSystem_eq Compile c resourceType res h, rfl⟩
  · cases h : c.iamconn.ListUsers with
    | none => simp [deleteIamUser, h]
    | some res => exact ⟨_, deleteIamUser_eq Compile c resourceType res h, rfl⟩
  · cases h : c.iamconn.ListPolicies with
    | none => simp [deleteIamPolicy, h]
    | some res => exact ⟨_, deleteIamPolicy_eq Compile c resourceType res h, rfl⟩
  · cases h : c.iamconn.ListRoles with
    | none => simp [deleteIamRole, h]
    | some res => exact ⟨_, _, deleteIamRole_eq Compile c resourceType res h, rfl, rfl⟩
  · cases h : c.r53conn.ListHostedZones with
    | none => simp [deleteRoute53Zone, h]
    | some res =>
      refine ⟨_, deleteRoute53Zone_eq Compile c resourceType res h, rfl, ?_⟩
      intro d hd
      simp only [List.mem_flatMap, matchedBy, List.mem_filter] at hd
      obtain ⟨hz, ⟨hmem, hc⟩, hd⟩ := hd
      refine ⟨hz, hmem, hc, ?_⟩
      rw [deleteRoute53Record_eq] at hd ⊢
      cases hr : recordsOf c hz.Id with
      | none => rw [hr] at hd; simp at hd
      | some values =>
        rw [hr] at hd
        simp only [List.mem_singleton] at hd
        simp [hd]

theorem dependents_before_parent_witness :
    ∃ att pols,
      deleteIamRole literalCompile exampleRoles "aws_iam_role" =
        [att, pols] ++ [{ Type_ := "aws_iam_role", Ids := ["temp-ci-role"] }] ∧
      att.Type_ = "aws_iam_role_policy_attachment" ∧ pols.Type_ = "aws_iam_role_policy" := by
  obtain ⟨att, pols, h, h1, h2⟩ :=
    (dependents_before_parent literalCompile exampleRoles "aws_iam_role").2.2.2.1
  have hm : (matchedBy literalCompile exampleRoles "aws_iam_role"
      (fun role : iam.Role => role.RoleName) [⟨"temp-ci-role"⟩, ⟨"prod-role"⟩]).map
        (fun role => role.RoleName) = ["temp-ci-role"] := by decide
  exact ⟨att, pols, by rw [h, hm], h1, h2⟩

/-! ## Types without a rule -/

theorem matchedBy_unconfigured (Compile : String → Option Regexp) (c : WipeCommand)
    (resourceType : String) (hcfg : c.in_.lookup resourceType = none)
    {α : Type} (key : α → String) (l : List α) :
    matchedBy Compile c resourceType key l = [] := by
  simp [matchedBy, checkDelete_none Compile c resourceType _ _ hcfg]

theorem matchedItem_unconfigured (Compile : String → Option Regexp) (c : WipeCommand)
    (resDelDesc : ResourceDeleteDescription)
    (hcfg : c.in_.lookup resDelDesc.TerraformResourceType = none)
    (jq : JsonQuery) (i : Nat) :
    matchedItem Compile c resDelDesc jq i = none := by
  unfold matchedItem
  cases jq.String_ [resDelDesc.Name, strconv.Itoa i, resDelDesc.Id] with
  | none => rfl
  | some id => simp [checkDelete_none Compile c _ _ _ hcfg]

theorem listStuff_unconfigured (Compile : String → Option Regexp) (c : WipeCommand)
    (resDelDesc : ResourceDeleteDescription)
    (hcfg : c.in_.lookup resDelDesc.TerraformResourceType = none)
    (jq : JsonQuery) :
    ∀ rs ∈ listStuff Compile c resDelDesc jq, rs.Ids = [] := by
  intro rs hrs
  cases h : jq.Array [resDelDesc.Name] with
  | none => simp [listStuff_none Compile c resDelDesc jq h] at hrs
  | some result =>
    rw [listStuff_eq Compile c resDelDesc jq result h] at hrs
    have hnone : matchedItem Compile c resDelDesc jq = fun _ => none :=
      funext (matchedItem_unconfigured Compile c resDelDesc hcfg jq)
    simp only [List.mem_singleton] at hrs
    simp [hrs, hnone]

/-- The delete procedures that call `checkDelete` offer no resource of a type
without a rule: every set they hand to `deleteResources` has an empty id list.
(`deleteKmsKeys` is not among them.) -/
theorem unconfigured_offers_nothing (Compile : String → Option Regexp) (c : WipeCommand)
    (resourceType : String) (hcfg : c.in_.lookup resourceType = none)
    (resDelDesc : ResourceDeleteDescription)
    (hdesc : resDelDesc.TerraformResourceType = resourceType) (jq : JsonQuery) :
    ∀ rs ∈ listStuff Compile c resDelDesc jq ++ deleteKmsAliases Compile c resDelDesc ++
        deleteInstances Compile c resourceType ++ deleteAmis Compile c resourceType ++
        deleteEfsFileSystem Compile c resourceType ++ deleteIamUser Compile c resourceType ++
        deleteIamPolicy Compile c resourceType ++ deleteIamRole Compile c resourceType ++
        deleteRoute53Zone Compile c resourceType,
      rs.Ids = [] := by
  have hcfg2 : c.in_.lookup resDelDesc.TerraformResourceType = none := by rw [hdesc]; exact hcfg
  have hck : ∀ id tags, checkDelete Compile c resourceType id tags = false :=
    fun id tags => checkDelete_none Compile c resourceType id tags hcfg
  intro rs hrs
  simp only [List.mem_append] at hrs
  rcases hrs with ((((((((h | h) | h) | h) | h) | h) | h) | h) | h)
  · exact listStuff_unconfigured Compile c resDelDesc hcfg2 jq rs h
  · unfold deleteKmsAliases at h
    cases hl : c.kmsconn.ListAliases with
    | none => simp [hl] at h
    | some res =>
      rw [hl] at h
      exact listStuff_unconfigured Compile c resDelDesc hcfg2 _ rs h
  · cases hl : c.ec2conn.DescribeInstances with
    | none => simp [deleteInstances, hl] at h
    | some res =>
      rw [deleteInstances_eq Compile c resourceType res hl] at h
      simp only [List.mem_singleton] at h
      simp [h, matchedInstances, hck]
  · cases hl : c.ec2conn.DescribeImages with
    | none => simp [deleteAmis, hl] at h
    | some res =>
      rw [deleteAmis_eq Compile c resourceType res hl] at h
      simp only [List.mem_singleton] at h
      simp [h, matchedImages, hck]
  · cases hl : c.efsconn.DescribeFileSystems with
    | none => simp [deleteEfsFileSystem, hl] at h
    | some res =>
      rw [deleteEfsFileSystem_eq Compile c resourceType res hl] at h
      simp only [matchedBy_unconfigured Compile c resourceType hcfg] at h
      simp only [List.mem_cons, List.mem_singleton, List.not_mem_nil, or_false] at h
      rcases h with h | h <;> simp [h]
  · cases hl : c.iamconn.ListUsers with
    | none => simp [deleteIamUser, hl] at h
    | some res =>
      rw [deleteIamUser_eq Compile c resourceType res hl] at h
      simp only [matchedBy_unconfigured Compile c resourceType hcfg] at h
      simp only [List.mem_cons, List.mem_singleton, List.not_mem_nil, or_false] at h
      rcases h with h | h <;> simp [h]
  · cases hl : c.iamconn.ListPolicies with
    | none => simp [deleteIamPolicy, hl] at h
    | some res =>
      rw [deleteIamPolicy_eq Compile c resourceType res hl] at h
      simp only [matchedBy_unconfigured Compile c resourceType hcfg] at h
      simp only [List.mem_cons, List.mem_singleton, List.not_mem_nil, or_false] at h
      rcases h with h | h <;> simp [h]
  · cases hl : c.iamconn.ListRoles with
    | none => simp [deleteIamRole, hl] at h
    | some res =>
      rw [deleteIamRole_eq Compile c resourceType res hl] at h
      simp only [matchedBy_unconfigured Compile c resourceType hcfg] at h
      simp only [List.mem_cons, List.mem_singleton, List.not_mem_nil, or_false] at h
      rcases h with h | h | h <;> simp [h]
  · cases hl : c.r53conn.ListHostedZones with
    | none => simp [deleteRoute53Zone, hl] at h
    | some res =>
      rw [deleteRoute53Zone_eq Compile c resourceType res hl] at h
      simp only [matchedBy_unconfigured Compile c resourceType hcfg] at h
      simp only [List.flatMap_nil, List.nil_append, List.map_nil, List.mem_singleton] at h
      simp [h]

/-- C3 at `deleteKmsKeys`: with an empty rule configuration (no rule for
`aws_kms_key`, so `checkDelete` is false on the key) and one key that is not
pending deletion, `deleteKmsKeys` hands a set with that key to
`deleteResources`. -/
theorem deleteKmsKeys_unconfigured_offers_key :
    (({ kmsconn := { ListKeys := some [⟨"k-1", "arn:aws:kms:key/k-1"⟩],
                     DescribeKey := fun _ => some "Enabled" } } : WipeCommand).in_.lookup
        "aws_kms_key" = none) ∧
    checkDelete literalCompile
      { kmsconn := { ListKeys := some [⟨"k-1", "arn:aws:kms:key/k-1"⟩],
                     DescribeKey := fun _ => some "Enabled" } }
      "aws_kms_key" "arn:aws:kms:key/k-1" [] = false ∧
    deleteKmsKeys
      { kmsconn := { ListKeys := some [⟨"k-1", "arn:aws:kms:key/k-1"⟩],
                     DescribeKey := fun _ => some "Enabled" } }
      "aws_kms_key" = [{ Type_ := "aws_kms_key", Ids := ["arn:aws:kms:key/k-1"] }] := by
  refine ⟨by decide, by decide, by decide⟩

/-! ## The dependents handed to `deleteResources` -/

theorem mem_flatMap_matchedBy (Compile : String → Option Regexp) (c : WipeCommand)
    (resourceType : String) {α β : Type} (key : α → String) (F : α → List β)
    (l : List α) (x : β) :
    x ∈ (matchedBy Compile c resourceType key l).flatMap F ↔
      ∃ r ∈ l, checkDelete Compile c resourceType (key r) [] = true ∧ x ∈ F r := by
  simp only [matchedBy, List.mem_flatMap, List.mem_filter]
  constructor
  · rintro ⟨r, ⟨hr, hc⟩, hx⟩
    exact ⟨r, hr, hc, hx⟩
  · rintro ⟨r, hr, hc, hx⟩
    exact ⟨r, ⟨hr, hc⟩, hx⟩

/-- The four delete procedures with dependents other than `deleteRoute53Zone`:
the dependent set is handed over under the dependent's own type and holds every
dependent listed under the parents on which `checkDelete` returned true, in
parent discovery order, each parent contributing what its listing returned
(nothing when it failed), with no filtering of the dependents, and nothing of
an unmatched parent. For `deleteIamPolicy` the dependent is the attachment of
a matched policy whose entities could be listed: its id is the policy's ARN and
its attributes hold the listed users, roles and groups. -/
theorem siblings_hand_over_all_dependents (Compile : String → Option Regexp)
    (c : WipeCommand) (resourceType : String) :
    (match c.efsconn.DescribeFileSystems with
      | none => deleteEfsFileSystem Compile c resourceType = []
      | some res => ∃ parent,
          deleteEfsFileSystem Compile c resourceType =
            [{ Type_ := "aws_efs_mount_target",
               Ids := (matchedBy Compile c resourceType (fun r => r.Name)
                 res.FileSystems).flatMap (mountTargetsOf c) }, parent] ∧
          ∀ x, x ∈ (matchedBy Compile c resourceType (fun r => r.Name)
              res.FileSystems).flatMap (mountTargetsOf c) ↔
            ∃ r ∈ res.FileSystems,
              checkDelete Compile c resourceType r.Name [] = true ∧ x ∈ mountTargetsOf c r) ∧
    (match c.iamconn.ListUsers with
      | none => deleteIamUser Compile c resourceType = []
      | some res => ∃ parent,
          deleteIamUser Compile c resourceType =
            [{ Type_ := "aws_iam_user_policy_attachment",
               Ids := (matchedBy Compile c resourceType (fun u => u.UserName) res).flatMap
                 (fun u => (attachedUserPoliciesOf c u).map fun upol => upol.PolicyArn),
               Attrs := (matchedBy Compile c resourceType (fun u => u.UserName) res).flatMap
                 (fun u => (attachedUserPoliciesOf c u).map fun upol =>
                   [("user", u.UserName), ("policy_arn", upol.PolicyArn)]) }, parent] ∧
          ∀ x, x ∈ (matchedBy Compile c resourceType (fun u => u.UserName) res).flatMap
              (fun u => (attachedUserPoliciesOf c u).map fun upol => upol.PolicyArn) ↔
            ∃ u ∈ res, checkDelete Compile c resourceType u.UserName [] = true ∧
              x ∈ (attachedUserPoliciesOf c u).map fun upol => upol.PolicyArn) ∧
    (match c.iamconn.ListPolicies with
      | none => deleteIamPolicy Compile c resourceType = []
      | some res => ∃ parent,
          deleteIamPolicy Compile c resourceType =
            [{ Type_ := "aws_iam_policy_attachment",
               Ids := (matchedBy Compile c resourceType (fun pol => pol.Arn) res).filterMap
                 (fun pol => (policyAttachmentOf c pol).map fun _ => pol.Arn),
               Attrs := (matchedBy Compile c resourceType (fun pol => pol.Arn) res).filterMap
                 (policyAttachmentOf c) }, parent] ∧
          ∀ a, a ∈ (matchedBy Compile c resourceType (fun pol => pol.Arn) res).filterMap
              (policyAttachmentOf c) ↔
            ∃ pol ∈ res, checkDelete Compile c resourceType pol.Arn [] = true ∧
              ∃ es, c.iamconn.ListEntitiesForPolicy pol.Arn = some es ∧
                a = [("policy_arn", pol.Arn), ("name", pol.PolicyName),
                     ("users", ".".intercalate es.PolicyUsers),
                     ("roles", ".".intercalate es.PolicyRoles),
                     ("groups", ".".intercalate es.PolicyGroups)]) ∧
    (match c.iamconn.ListRoles with
      | none => deleteIamRole Compile c resourceType = []
      | some res => ∃ parent,
          deleteIamRole Compile c resourceType =
            [{ Type_ := "aws_iam_role_policy_attachment",
               Ids := (matchedBy Compile c resourceType (fun role => role.RoleName)
                 res).flatMap
                   (fun role => (attachedRolePoliciesOf c role).map fun rpol => rpol.PolicyArn),
               Attrs := (matchedBy Compile c resourceType (fun role => role.RoleName)
                 res).flatMap
                   (fun role => (attachedRolePoliciesOf c role).map fun rpol =>
                     [("role", role.RoleName), ("policy_arn", rpol.PolicyArn)]) },
             { Type_ := "aws_iam_role_policy",
               Ids := (matchedBy Compile c resourceType (fun role => role.RoleName)
                 res).flatMap
                   (fun role => (rolePoliciesOf c role).map fun rp =>
                     role.RoleName ++ ":" ++ rp) }, parent] ∧
          (∀ x, x ∈ (matchedBy Compile c resourceType (fun role => role.RoleName)
              res).flatMap
                (fun role => (attachedRolePoliciesOf c role).map fun rpol => rpol.PolicyArn) ↔
            ∃ role ∈ res, checkDelete Compile c resourceType role.RoleName [] = true ∧
              x ∈ (attachedRolePoliciesOf c role).map fun rpol => rpol.PolicyArn) ∧
          (∀ x, x ∈ (matchedBy Compile c resourceType (fun role => role.RoleName)
              res).flatMap
                (fun role => (rolePoliciesOf c role).map fun rp =>
                  role.RoleName ++ ":" ++ rp) ↔
            ∃ role ∈ res, checkDelete Compile c resourceType role.RoleName [] = true ∧
              x ∈ (rolePoliciesOf c role).map fun rp => role.RoleName ++ ":" ++ rp)) := by
  refine ⟨?_, ?_, ?_, ?_⟩
  · cases h : c.efsconn.DescribeFileSystems with
    | none => simp [deleteEfsFileSystem, h]
    | some res =>
      exact ⟨_, deleteEfsFileSystem_eq Compile c resourceType res h,
        mem_flatMap_matchedBy Compile c resourceType _ _ _⟩
  · cases h : c.iamconn.ListUsers with
    | none => simp [deleteIamUser, h]
    | some res =>
      exact ⟨_, deleteIamUser_eq Compile c resourceType res h,
        mem_flatMap_matchedBy Compile c resourceType _ _ _⟩
  · cases h : c.iamconn.ListPolicies with
    | none => simp [deleteIamPolicy, h]
    | some res =>
      refine ⟨_, deleteIamPolicy_eq Compile c resourceType res h, ?_⟩
      intro a
      simp only [matchedBy, List.mem_filterMap, List.mem_filter, policyAttachmentOf,
        Option.map_eq_some']
      constructor
      · rintro ⟨pol, ⟨hp, hc⟩, es, hes, rfl⟩
        exact ⟨pol, hp, hc, es, hes, rfl⟩
      · rintro ⟨pol, hp, hc, es, hes, rfl⟩
        exact ⟨pol, ⟨hp, hc⟩, es, hes, rfl⟩
  · cases h : c.iamconn.ListRoles with
    | none => simp [deleteIamRole, h]
    | some res =>
      exact ⟨_, deleteIamRole_eq Compile c resourceType res h,
        mem_flatMap_matchedBy Compile c resourceType _ _ _,
        mem_flatMap_matchedBy Compile c resourceType _ _ _⟩

/-- The role scenario in `deleteIamRole`: the attachment and the inline policy
of the matched role are handed over, nothing of `prod-role`. -/
theorem siblings_hand_over_all_dependents_example :
    ∃ parent,
      deleteIamRole literalCompile exampleRoles "aws_iam_role" =
        [{ Type_ := "aws_iam_role_policy_attachment",
           Ids := ["arn:aws:iam::aws:policy/ReadOnlyAccess"],
           Attrs := [[("role", "temp-ci-role"),
                      ("policy_arn", "arn:aws:iam::aws:policy/ReadOnlyAccess")]] },
         { Type_ := "aws_iam_role_policy", Ids := ["temp-ci-role:inline"] }, parent] := by
  obtain ⟨parent, h, -, -⟩ :=
    (siblings_hand_over_all_dependents literalCompile exampleRoles "aws_iam_role").2.2.2
  refine ⟨parent, ?_⟩
  rw [h]
  have h1 : (matchedBy literalCompile exampleRoles "aws_iam_role"
      (fun role : iam.Role => role.RoleName) [⟨"temp-ci-role"⟩, ⟨"prod-role"⟩]) =
      [⟨"temp-ci-role"⟩] := by decide
  rw [h1]
  rfl

/-- C7 at `deleteRoute53Zone`. With the rule `ids: [^Z1$]` zone `Z1` is matched
and the record value `ns-1` is listed under it, yet the record set handed to
`deleteResources` is empty: `deleteRoute53Record` keeps only the values on which
`checkDelete`, called with the zone's type, returns true. With the sweep-all
rule the value is kept, and is handed over under the zone's type
`aws_route53_zone`. -/
theorem route53_records_filtered :
    checkDelete literalCompile
      { in_ := [("aws_route53_zone", { Ids := ["^Z1$"] })],
        r53conn := { ListHostedZones := some [⟨"Z1", "example"⟩],
                     ListResourceRecordSets := fun _ => some [⟨["ns-1"]⟩] } }
      "aws_route53_zone" "Z1" [] = true ∧
    recordsOf
      { in_ := [("aws_route53_zone", { Ids := ["^Z1$"] })],
        r53conn := { ListHostedZones := some [⟨"Z1", "example"⟩],
                     ListResourceRecordSets := fun _ => some [⟨["ns-1"]⟩] } }
      "Z1" = some ["ns-1"] ∧
    deleteRoute53Zone literalCompile
      { in_ := [("aws_route53_zone", { Ids := ["^Z1$"] })],
        r53conn := { ListHostedZones := some [⟨"Z1", "example"⟩],
                     ListResourceRecordSets := fun _ => some [⟨["ns-1"]⟩] } }
      "aws_route53_zone" =
      [{ Type_ := "aws_route53_zone", Ids := [] },
       { Type_ := "aws_route53_zone", Ids := ["Z1"],
         Attrs := [[("force_destroy", "true"), ("name", "example")]] }] ∧
    deleteRoute53Zone literalCompile
      { in_ := [("aws_route53_zone", {})],
        r53conn := { ListHostedZones := some [⟨"Z1", "example"⟩],
                     ListResourceRecordSets := fun _ => some [⟨["ns-1"]⟩] } }
      "aws_route53_zone" =
      [{ Type_ := "aws_route53_zone", Ids := ["ns-1"] },
       { Type_ := "aws_route53_zone", Ids := ["Z1"],
         Attrs := [[("force_destroy", "true"), ("name", "example")]] }] := by
  refine ⟨by decide, by decide, by decide, by decide⟩

/-! ## listStuff -/

theorem filterMap_filter_of_none {α β : Type} (f : α → Option β) (p : α → Bool)
    (l : List α) (h : ∀ x ∈ l, p x = false → f x = none) :
    (l.filter p).filterMap f = l.filterMap f := by
  induction l with
  | nil => rfl
  | cons a l ih =>
    have ih2 := ih (fun x hx => h x (List.mem_cons_of_mem _ hx))
    by_cases hp : p a = true
    · simp [List.filter_cons, hp, List.filterMap_cons, ih2]
    · have hpf : p a = false := by simpa using hp
      simp [List.filter_cons, hpf, List.filterMap_cons, ih2, h a (List.mem_cons_self _ _) hpf]

/-- C8: when the descriptor's array path cannot be read, `listStuff` hands
nothing to `deleteResources`; otherwise it hands one set of the descriptor's
type whose id list is, in response order (index order), the ids of the items
whose identifier field is readable as a string and on which
`checkDelete(type, id, tags)` is true, `tags` being the item's tag map (`[]`
without a `Tags` array; entries with an unreadable `Key` or `Value` left out).
An item with an unreadable identifier is skipped: the id list is the one
obtained from the other items. -/
theorem listStuff_ids (Compile : String → Option Regexp) (c : WipeCommand)
    (resDelDesc : ResourceDeleteDescription) (jq : JsonQuery) :
    match jq.Array [resDelDesc.Name] with
    | none => listStuff Compile c resDelDesc jq = []
    | some result => ∃ rs,
        listStuff Compile c resDelDesc jq = [rs] ∧
        rs.Type_ = resDelDesc.TerraformResourceType ∧
        rs.Ids = ((List.range result.length).filterMap
          (matchedItem Compile c resDelDesc jq)).map Prod.fst ∧
        (∀ id, id ∈ rs.Ids ↔ ∃ i, i < result.length ∧
          jq.String_ [resDelDesc.Name, strconv.Itoa i, resDelDesc.Id] = some id ∧
          checkDelete Compile c resDelDesc.TerraformResourceType id
            [itemTags jq resDelDesc.Name i] = true) ∧
        (∀ i, jq.String_ [resDelDesc.Name, strconv.Itoa i, resDelDesc.Id] = none →
          rs.Ids = (((List.range result.length).filter (fun k => k != i)).filterMap
            (matchedItem Compile c resDelDesc jq)).map Prod.fst) := by
  cases h : jq.Array [resDelDesc.Name] with
  | none => exact listStuff_none Compile c resDelDesc jq h
  | some result =>
    refine ⟨_, listStuff_eq Compile c resDelDesc jq result h, rfl, rfl, ?_, ?_⟩
    · intro id
      simp only [List.mem_map, List.mem_filterMap, List.mem_range, Prod.exists,
        exists_and_right, exists_eq_right]
      constructor
      · rintro ⟨m, i, hi, hm⟩
        refine ⟨i, hi, ?_⟩
        unfold matchedItem at hm
        cases hs : jq.String_ [resDelDesc.Name, strconv.Itoa i, resDelDesc.Id] with
        | none => simp [hs] at hm
        | some id2 =>
          rw [hs] at hm
          by_cases hc : checkDelete Compile c resDelDesc.TerraformResourceType id2
              [itemTags jq resDelDesc.Name i] = true
          · simp only [hc, if_true, Option.some.injEq, Prod.mk.injEq] at hm
            rw [← hm.1]
            exact ⟨rfl, hc⟩
          · simp [hc] at hm
      · rintro ⟨i, hi, hs, hc⟩
        exact ⟨itemTags jq resDelDesc.Name i, i, hi, by simp [matchedItem, hs, hc]⟩
    intro i hi
    show _ = _
    rw [filterMap_filter_of_none]
    intro k _ hk
    have hki : k = i := by simpa using hk
    subst hki
    simp [matchedItem, hi]

theorem listStuff_ids_witness :
    ∃ rs,
      listStuff literalCompile { in_ := [("aws_vpc", {})] } ⟨"aws_vpc", "Vpcs", "VpcId"⟩
        (jsonq.NewQuery exampleResponse) = [rs] ∧
      rs.Type_ = "aws_vpc" ∧ rs.Ids = ["vpc-1", "vpc-3"] ∧
      rs.Tags = [[("env", "dev")], []] := by
  obtain ⟨rs, h1, h2, h3, -, -⟩ :=
    listStuff_ids literalCompile { in_ := [("aws_vpc", {})] } ⟨"aws_vpc", "Vpcs", "VpcId"⟩
      (jsonq.NewQuery exampleResponse)
  refine ⟨rs, h1, h2, ?_, ?_⟩
  · rw [h3]
    decide
  · have h4 : listStuff literalCompile { in_ := [("aws_vpc", {})] }
        ⟨"aws_vpc", "Vpcs", "VpcId"⟩ (jsonq.NewQuery exampleResponse) =
        [{ Type_ := "aws_vpc", Ids := ["vpc-1", "vpc-3"], Tags := [[("env", "dev")], []] }] := by
      decide
    rw [h4] at h1
    simp only [List.cons.injEq, and_true] at h1
    rw [← h1]

/-! ## Alignment of ids, tags and attrs -/

theorem build_aligned (type : String) {α : Type} (items : List α) (id : α → String)
    (tags attrs : Option (α → StrMap)) :
    ((build type items id tags attrs).Tags = [] ∨
      (build type items id tags attrs).Tags.length = (build type items id tags attrs).Ids.length) ∧
    ((build type items id tags attrs).Attrs = [] ∨
      (build type items id tags attrs).Attrs.length =
        (build type items id tags attrs).Ids.length) := by
  cases tags <;> cases attrs <;> simp [build]

/-- C10 fails as stated: with the sweep-all rule for `aws_instance` and one
running instance, `deleteInstances` hands over a set with one id, one tag map
and no attribute map. -/
theorem deleteInstances_attrs_left_out :
    deleteInstances literalCompile
      { in_ := [("aws_instance", {})],
        ec2conn := { DescribeInstances := some { Reservations := [{ Instances :=
          [{ InstanceId := "i-1", StateName := "running", Tags := [⟨"env", "dev"⟩] }] }] } } }
      "aws_instance" =
      [{ Type_ := "aws_instance", Ids := ["i-1"], Tags := [[("env", "dev")]], Attrs := [] }] ∧
    ¬ ∀ rs ∈ deleteInstances literalCompile
        { in_ := [("aws_instance", {})],
          ec2conn := { DescribeInstances := some { Reservations := [{ Instances :=
            [{ InstanceId := "i-1", StateName := "running", Tags := [⟨"env", "dev"⟩] }] }] } } }
        "aws_instance",
      rs.Ids.length = rs.Tags.length ∧ rs.Ids.length = rs.Attrs.length := by
  refine ⟨by decide, by decide⟩

/-- C10, as the code has it. Every set handed to `deleteResources` is built
from a list of resources: `Ids` holds their ids, and each of `Tags` and `Attrs`
is either left out (empty) or has the length of `Ids` and holds at index `i`
the tag map, respectively the attribute map, of the resource whose id is
`Ids[i]`. `listStuff`, `deleteInstances` and `deleteAmis` hand over tags; the
attachment sets, the user set and the zone set hand over attrs; the other sets
hand over ids only. For `deleteKmsKeys` the statement covers ids and tags. -/
theorem resource_sets_aligned (Compile : String → Option Regexp) (c : WipeCommand)
    (resourceType : String) (resDelDesc : ResourceDeleteDescription) (jq : JsonQuery)
    (hostedZoneId : String) :
    (∀ rs ∈ listStuff Compile c resDelDesc jq ++ deleteKmsAliases Compile c resDelDesc ++
        deleteInstances Compile c resourceType ++ deleteAmis Compile c resourceType ++
        deleteEfsFileSystem Compile c resourceType ++ deleteIamUser Compile c resourceType ++
        deleteIamPolicy Compile c resourceType ++ deleteIamRole Compile c resourceType ++
        deleteRoute53Record Compile c resourceType hostedZoneId ++
        deleteRoute53Zone Compile c resourceType ++ deleteKmsKeys c resourceType,
      (rs.Tags = [] ∨ rs.Tags.length = rs.Ids.length) ∧
      (rs.Attrs = [] ∨ rs.Attrs.length = rs.Ids.length)) ∧
    (listStuff Compile c resDelDesc jq =
      match jq.Array [resDelDesc.Name] with
      | none => []
      | some result =>
        [build resDelDesc.TerraformResourceType
          ((List.range result.length).filterMap (matchedItem Compile c resDelDesc jq))
          Prod.fst (some Prod.snd) none]) ∧
    (deleteInstances Compile c resourceType =
      match c.ec2conn.DescribeInstances with
      | none => []
      | some res =>
        [build resourceType (matchedInstances Compile c resourceType res)
          (fun inst => inst.InstanceId) (some fun inst => tagMap inst.Tags) none]) ∧
    (deleteAmis Compile c resourceType =
      match c.ec2conn.DescribeImages with
      | none => []
      | some res =>
        [build resourceType (matchedImages Compile c resourceType res)
          (fun r => r.ImageId) (some fun r => tagMap r.Tags) none]) ∧
    (deleteEfsFileSystem Compile c resourceType =
      match c.efsconn.DescribeFileSystems with
      | none => []
      | some res =>
        [build "aws_efs_mount_target"
          ((matchedBy Compile c resourceType (fun r => r.Name) res.FileSystems).flatMap
            (mountTargetsOf c)) (fun mt => mt) none none,
         build resourceType (matchedBy Compile c resourceType (fun r => r.Name) res.FileSystems)
          (fun r => r.FileSystemId) none none]) ∧
    (deleteIamUser Compile c resourceType =
      match c.iamconn.ListUsers with
      | none => []
      | some res =>
        [build "aws_iam_user_policy_attachment"
          ((matchedBy Compile c resourceType (fun u => u.UserName) res).flatMap
            (fun u => (attachedUserPoliciesOf c u).map fun upol => (u, upol)))
          (fun p => p.2.PolicyArn) none
          (some fun p => [("user", p.1.UserName), ("policy_arn", p.2.PolicyArn)]),
         build resourceType (matchedBy Compile c resourceType (fun u => u.UserName) res)
          (fun u => u.UserName) none (some fun _ => [("force_destroy", "true")])]) ∧
    (deleteIamPolicy Compile c resourceType =
      match c.iamconn.ListPolicies with
      | none => []
      | some res =>
        [build "aws_iam_policy_attachment"
          ((matchedBy Compile c resourceType (fun pol => pol.Arn) res).filterMap
            (fun pol => (policyAttachmentOf c pol).map fun a => (pol, a)))
          (fun p => p.1.Arn) none (some fun p => p.2),
         build resourceType (matchedBy Compile c resourceType (fun pol => pol.Arn) res)
          (fun pol => pol.Arn) none none]) ∧
    (deleteIamRole Compile c resourceType =
      match c.iamconn.ListRoles with
      | none => []
      | some res =>
        [build "aws_iam_role_policy_attachment"
          ((matchedBy Compile c resourceType (fun role => role.RoleName) res).flatMap
            (fun role => (attachedRolePoliciesOf c role).map fun rpol => (role, rpol)))
          (fun p => p.2.PolicyArn) none
          (some fun p => [("role", p.1.RoleName), ("policy_arn", p.2.PolicyArn)]),
         build "aws_iam_role_policy"
          ((matchedBy Compile c resourceType (fun role => role.RoleName) res).flatMap
            (fun role => (rolePoliciesOf c role).map fun rp => (role, rp)))
          (fun p => p.1.RoleName ++ ":" ++ p.2) none none,
         build resourceType (matchedBy Compile c resourceType (fun role => role.RoleName) res)
          (fun role => role.RoleName) none none]) ∧
    (deleteRoute53Record Compile c resourceType hostedZoneId =
      match recordsOf c hostedZoneId with
      | none => []
      | some values =>
        [build resourceType (values.filter fun rr => checkDelete Compile c resourceType rr [])
          (fun rr => rr) none none]) ∧
    (deleteRoute53Zone Compile c resourceType =
      match c.r53conn.ListHostedZones with
      | none => []
      | some res =>
        (matchedBy Compile c resourceType (fun hz => hz.Id) res).flatMap
            (fun hz => deleteRoute53Record Compile c resourceType hz.Id) ++
          [build resourceType (matchedBy Compile c resourceType (fun hz => hz.Id) res)
            (fun hz => hz.Id) none
            (some fun hz => [("force_destroy", "true"), ("name", hz.Name)])]) ∧
    (∀ rs ∈ deleteKmsKeys c resourceType, ∃ res, c.kmsconn.ListKeys = some res ∧
      rs.Ids = (liveKeys c res).map (fun r => r.KeyArn) ∧ rs.Tags = []) := by
  have hList : listStuff Compile c resDelDesc jq =
      match jq.Array [resDelDesc.Name] with
      | none => []
      | some result =>
        [build resDelDesc.TerraformResourceType
          ((List.range result.length).filterMap (matchedItem Compile c resDelDesc jq))
          Prod.fst (some Prod.snd) none] := by
    cases h : jq.Array [resDelDesc.Name] with
    | none => exact listStuff_none Compile c resDelDesc jq h
    | some result => exact listStuff_eq Compile c resDelDesc jq result h
  have hListAny : ∀ jq2 : JsonQuery, ∀ rs ∈ listStuff Compile c resDelDesc jq2,
      (rs.Tags = [] ∨ rs.Tags.length = rs.Ids.length) ∧
      (rs.Attrs = [] ∨ rs.Attrs.length = rs.Ids.length) := by
    intro jq2 rs hrs
    cases h : jq2.Array [resDelDesc.Name] with
    | none => simp [listStuff_none Compile c resDelDesc jq2 h] at hrs
    | some result =>
      rw [listStuff_eq Compile c resDelDesc jq2 result h] at hrs
      simp only [List.mem_singleton] at hrs
      simp [hrs]
  have hInst : deleteInstances Compile c resourceType =
      match c.ec2conn.DescribeInstances with
      | none => []
      | some res =>
        [build resourceType (matchedInstances Compile c resourceType res)
          (fun inst => inst.InstanceId) (some fun inst => tagMap inst.Tags) none] := by
    cases h : c.ec2conn.DescribeInstances with
    | none => simp [deleteInstances, h]
    | some res => exact deleteInstances_eq Compile c resourceType res h
  have hAmi : deleteAmis Compile c resourceType =
      match c.ec2conn.DescribeImages with
      | none => []
      | some res =>
        [build resourceType (matchedImages Compile c resourceType res)
          (fun r => r.ImageId) (some fun r => tagMap r.Tags) none] := by
    cases h : c.ec2conn.DescribeImages with
    | none => simp [deleteAmis, h]
    | some res => exact deleteAmis_eq Compile c resourceType res h
  have hEfs : deleteEfsFileSystem Compile c resourceType =
      match c.efsconn.DescribeFileSystems with
      | none => []
      | some res =>
        [build "aws_efs_mount_target"
          ((matchedBy Compile c resourceType (fun r => r.Name) res.FileSystems).flatMap
            (mountTargetsOf c)) (fun mt => mt) none none,
         build resourceType (matchedBy Compile c resourceType (fun r => r.Name) res.FileSystems)
          (fun r => r.FileSystemId) none none] := by
    cases h : c.efsconn.DescribeFileSystems with
    | none => simp [deleteEfsFileSystem, h]
    | some res =>
      rw [deleteEfsFileSystem_eq Compile c resourceType res h]
      simp [build]
  have hUser : deleteIamUser Compile c resourceType =
      match c.iamconn.ListUsers with
      | none => []
      | some res =>
        [build "aws_iam_user_policy_attachment"
          ((matchedBy Compile c resourceType (fun u => u.UserName) res).flatMap
            (fun u => (attachedUserPoliciesOf c u).map fun upol => (u, upol)))
          (fun p => p.2.PolicyArn) none
          (some fun p => [("user", p.1.UserName), ("policy_arn", p.2.PolicyArn)]),
         build resourceType (matchedBy Compile c resourceType (fun u => u.UserName) res)
          (fun u => u.UserName) none (some fun _ => [("force_destroy", "true")])] := by
    cases h : c.iamconn.ListUsers with
    | none => simp [deleteIamUser, h]
    | some res =>
      rw [deleteIamUser_eq Compile c resourceType res h]
      simp [build, List.map_flatMap, Function.comp_def]
  have hPol : deleteIamPolicy Compile c resourceType =
      match c.iamconn.ListPolicies with
      | none => []
      | some res =>
        [build "aws_iam_policy_attachment"
          ((matchedBy Compile c resourceType (fun pol => pol.Arn) res).filterMap
            (fun pol => (policyAttachmentOf c pol).map fun a => (pol, a)))
          (fun p => p.1.Arn) none (some fun p => p.2),
         build resourceType (matchedBy Compile c resourceType (fun pol => pol.Arn) res)
          (fun pol => pol.Arn) none none] := by
    cases h : c.iamconn.ListPolicies with
    | none => simp [deleteIamPolicy, h]
    | some res =>
      rw [deleteIamPolicy_eq Compile c resourceType res h]
      simp [build, List.map_filterMap, Function.comp_def]
  have hRole : deleteIamRole Compile c resourceType =
      match c.iamconn.ListRoles with
      | none => []
      | some res =>
        [build "aws_iam_role_policy_attachment"
          ((matchedBy Compile c resourceType (fun role => role.RoleName) res).flatMap
            (fun role => (attachedRolePoliciesOf c role).map fun rpol => (role, rpol)))
          (fun p => p.2.PolicyArn) none
          (some fun p => [("role", p.1.RoleName), ("policy_arn", p.2.PolicyArn)]),
         build "aws_iam_role_policy"
          ((matchedBy Compile c resourceType (fun role => role.RoleName) res).flatMap
            (fun role => (rolePoliciesOf c role).map fun rp => (role, rp)))
          (fun p => p.1.RoleName ++ ":" ++ p.2) none none,
         build resourceType (matchedBy Compile c resourceType (fun role => role.RoleName) res)
          (fun role => role.RoleName) none none] := by
    cases h : c.iamconn.ListRoles with
    | none => simp [deleteIamRole, h]
    | some res =>
      rw [deleteIamRole_eq Compile c resourceType res h]
      simp [build, List.map_flatMap, Function.comp_def]
  have hRec : ∀ zoneId, deleteRoute53Record Compile c resourceType zoneId =
      match recordsOf c zoneId with
      | none => []
      | some values =>
        [build resourceType (values.filter fun rr => checkDelete Compile c resourceType rr [])
          (fun rr => rr) none none] := by
    intro zoneId
    rw [deleteRoute53Record_eq]
    cases recordsOf c zoneId <;> simp [build]
  have hZone : deleteRoute53Zone Compile c resourceType =
      match c.r53conn.ListHostedZones with
      | none => []
      | some res =>
        (matchedBy Compile c resourceType (fun hz => hz.Id) res).flatMap
            (fun hz => deleteRoute53Record Compile c resourceType hz.Id) ++
          [build resourceType (matchedBy Compile c resourceType (fun hz => hz.Id) res)
            (fun hz => hz.Id) none
            (some fun hz => [("force_destroy", "true"), ("name", hz.Name)])] := by
    cases h : c.r53conn.ListHostedZones with
    | none => simp [deleteRoute53Zone, h]
    | some res => exact deleteRoute53Zone_eq Compile c resourceType res h
  have hRecAl : ∀ zoneId, ∀ rs ∈ deleteRoute53Record Compile c resourceType zoneId,
      (rs.Tags = [] ∨ rs.Tags.length = rs.Ids.length) ∧
      (rs.Attrs = [] ∨ rs.Attrs.length = rs.Ids.length) := by
    intro zoneId rs hrs
    rw [hRec zoneId] at hrs
    cases hl : recordsOf c zoneId with
    | none => rw [hl] at hrs; simp at hrs
    | some values =>
      rw [hl] at hrs
      simp only [List.mem_singleton] at hrs
      rw [hrs]
      exact build_aligned _ _ _ _ _
  have hKms : ∀ rs ∈ deleteKmsKeys c resourceType, ∃ res, c.kmsconn.ListKeys = some res ∧
      rs.Ids = (liveKeys c res).map (fun r => r.KeyArn) ∧ rs.Tags = [] := by
    intro rs hrs
    cases h : c.kmsconn.ListKeys with
    | none => simp [deleteKmsKeys, h] at hrs
    | some res =>
      rw [deleteKmsKeys_eq c resourceType res h] at hrs
      simp only [List.mem_singleton] at hrs
      exact ⟨res, rfl, by simp [hrs], by simp [hrs]⟩
  refine ⟨?_, hList, hInst, hAmi, hEfs, hUser, hPol, hRole, hRec hostedZoneId, hZone, hKms⟩
  intro rs hrs
  simp only [List.mem_append] at hrs
  rcases hrs with (((((((((h | h) | h) | h) | h) | h) | h) | h) | h) | h) | h
  · exact hListAny jq rs h
  · unfold deleteKmsAliases at h
    cases hl : c.kmsconn.ListAliases with
    | none => simp [hl] at h
    | some res =>
      rw [hl] at h
      exact hListAny _ rs h
  · rw [hInst] at h
    cases hl : c.ec2conn.DescribeInstances with
    | none => rw [hl] at h; simp at h
    | some res =>
      rw [hl] at h
      simp only [List.mem_singleton] at h
      rw [h]
      exact build_aligned _ _ _ _ _
  · rw [hAmi] at h
    cases hl : c.ec2conn.DescribeImages with
    | none => rw [hl] at h; simp at h
    | some res =>
      rw [hl] at h
      simp only [List.mem_singleton] at h
      rw [h]
      exact build_aligned _ _ _ _ _
  · rw [hEfs] at h
    cases hl : c.efsconn.DescribeFileSystems with
    | none => rw [hl] at h; simp at h
    | some res =>
      rw [hl] at h
      simp only [List.mem_cons, List.mem_singleton, List.not_mem_nil, or_false] at h
      rcases h with h | h <;> rw [h] <;> exact build_aligned _ _ _ _ _
  · rw [hUser] at h
    cases hl : c.iamconn.ListUsers with
    | none => rw [hl] at h; simp at h
    | some res =>
      rw [hl] at h
      simp only [List.mem_cons, List.mem_singleton, List.not_mem_nil, or_false] at h
      rcases h with h | h <;> rw [h] <;> exact build_aligned _ _ _ _ _
  · rw [hPol] at h
    cases hl : c.iamconn.ListPolicies with
    | none => rw [hl] at h; simp at h
    | some res =>
      rw [hl] at h
      simp only [List.mem_cons, List.mem_singleton, List.not_mem_nil, or_false] at h
      rcases h with h | h <;> rw [h] <;> exact build_aligned _ _ _ _ _
  · rw [hRole] at h
    cases hl : c.iamconn.ListRoles with
    | none => rw [hl] at h; simp at h
    | some res =>
      rw [hl] at h
      simp only [List.mem_cons, List.mem_singleton, List.not_mem_nil, or_false] at h
      rcases h with h | h | h <;> rw [h] <;> exact build_aligned _ _ _ _ _
  · exact hRecAl hostedZoneId rs h
  · rw [hZone] at h
    cases hl : c.r53conn.ListHostedZones with
    | none => rw [hl] at h; simp at h
    | some res =>
      rw [hl] at h
      simp only [List.mem_append, List.mem_flatMap, List.mem_singleton] at h
      rcases h with ⟨hz, _, h⟩ | h
      · exact hRecAl hz.Id rs h
      · rw [h]
        exact build_aligned _ _ _ _ _
  · obtain ⟨res, _, h1, h2⟩ := hKms rs h
    cases hl : c.kmsconn.ListKeys with
    | none => simp [deleteKmsKeys, hl] at h
    | some res2 =>
      rw [deleteKmsKeys_eq c resourceType res2 hl] at h
      simp only [List.mem_singleton] at h
      simp [h]

theorem resource_sets_aligned_witness :
    deleteIamRole literalCompile exampleRoles "aws_iam_role" =
      [{ Type_ := "aws_iam_role_policy_attachment",
         Ids := ["arn:aws:iam::aws:policy/ReadOnlyAccess"],
         Attrs := [[("role", "temp-ci-role"),
                    ("policy_arn", "arn:aws:iam::aws:policy/ReadOnlyAccess")]] },
       { Type_ := "aws_iam_role_policy", Ids := ["temp-ci-role:inline"] },
       { Type_ := "aws_iam_role", Ids := ["temp-ci-role"] }] := by
  have h := (resource_sets_aligned literalCompile exampleRoles "aws_iam_role"
    ⟨"aws_iam_role", "Roles", "RoleName"⟩ (jsonq.NewQuery []) "").2.2.2.2.2.2.2.1
  rw [h]
  decide

/-! ## listStuff on a decoded response -/

theorem digitChar_isDigit (k : Nat) (hk : k < 10) : (Nat.digitChar k).isDigit = true := by
  interval_cases k <;> decide

theorem digitChar_toNat (k : Nat) (hk : k < 10) : (Nat.digitChar k).toNat - 48 = k := by
  interval_cases k <;> decide

theorem toDigitsCore_all_isDigit (fuel n : Nat) (ds : List Char)
    (hds : ds.all Char.isDigit = true) :
    (Nat.toDigitsCore 10 fuel n ds).all Char.isDigit = true := by
  induction fuel generalizing n ds with
  | zero => simpa [Nat.toDigitsCore] using hds
  | succ fuel ih =>
    simp only [Nat.toDigitsCore]
    have hd : (Nat.digitChar (n % 10)).isDigit = true :=
      digitChar_isDigit _ (Nat.mod_lt _ (by decide))
    split
    · simp [hd, hds]
    · apply ih
      simp [hd, hds]

theorem toDigitsCore_ne_nil (fuel n : Nat) (ds : List Char) (h : 0 < fuel ∨ ds ≠ []) :
    Nat.toDigitsCore 10 fuel n ds ≠ [] := by
  induction fuel generalizing n ds with
  | zero => simpa [Nat.toDigitsCore] using h
  | succ fuel ih =>
    simp only [Nat.toDigitsCore]
    split
    · simp
    · apply ih
      right; simp

theorem toDigitsCore_value (fuel n : Nat) (ds : List Char) (hf : n < fuel) :
    (Nat.toDigitsCore 10 fuel n ds).foldl (fun n ch => 10 * n + (ch.toNat - 48)) 0 =
      ds.foldl (fun n ch => 10 * n + (ch.toNat - 48)) n := by
  induction fuel generalizing n ds with
  | zero => omega
  | succ fuel ih =>
    simp only [Nat.toDigitsCore]
    have hv := digitChar_toNat (n % 10) (Nat.mod_lt _ (by decide))
    split
    · simp only [List.foldl_cons, hv]
      congr 1
      omega
    · rw [ih]
      · simp only [List.foldl_cons, hv]
        congr 1
        omega
      · omega

/-- `Atoi` reads back what `Itoa` prints, within the range of `int`. -/
theorem Atoi_Itoa (i : Nat) (hi : i < 2 ^ 63) :
    strconv.Atoi (strconv.Itoa i) = some (i : Int) := by
  have hdata : (strconv.Itoa i).data = Nat.toDigits 10 i := rfl
  have hall : (Nat.toDigits 10 i).all Char.isDigit = true :=
    toDigitsCore_all_isDigit _ _ _ rfl
  have hne : Nat.toDigits 10 i ≠ [] := toDigitsCore_ne_nil _ _ _ (Or.inl (Nat.succ_pos _))
  have hval : strconv.digits (Nat.toDigits 10 i) = some i := by
    unfold strconv.digits
    rw [if_pos ⟨hne, hall⟩]
    congr 1
    have := toDigitsCore_value (i + 1) i [] (Nat.lt_succ_self _)
    simpa [Nat.toDigits] using this
  unfold strconv.Atoi
  rw [hdata]
  split
  · rename_i cs heq
    rw [heq] at hall
    simp at hall
  · rename_i cs heq
    rw [heq] at hall
    simp at hall
  · have h63 : (2 : Nat) ^ 63 = 9223372036854775808 := by norm_num
    simp only [hval, Option.some_bind, h63] at hi ⊢
    rw [if_pos hi]

theorem query_index (items : List JSON) (i : Nat) (hi : i < 2 ^ 63) :
    jsonq.query (.arr items) (strconv.Itoa i) = items.get? i := by
  unfold jsonq.query
  rw [Atoi_Itoa i hi]
  simp

theorem query_of_arrayAt (blob : JSON) (q : String) (result : List JSON)
    (h : jsonq.arrayAt blob [q] = some result) :
    jsonq.query blob q = some (.arr result) := by
  unfold jsonq.arrayAt jsonq.rquery at h
  cases hq : jsonq.query blob q with
  | none => simp [hq] at h
  | some val =>
    rw [hq] at h
    cases val <;> simp [jsonq.rquery] at h
    rw [h]

theorem stringAt_cons (blob val : JSON) (q : String) (s : List String)
    (hq : jsonq.query blob q = some val) :
    jsonq.stringAt blob (q :: s) = jsonq.stringAt val s := by
  simp [jsonq.stringAt, jsonq.rquery, hq]

theorem arrayAt_cons (blob val : JSON) (q : String) (s : List String)
    (hq : jsonq.query blob q = some val) :
    jsonq.arrayAt blob (q :: s) = jsonq.arrayAt val s := by
  simp [jsonq.arrayAt, jsonq.rquery, hq]

theorem range_filterMap_get {α β : Type} (g : α → Option β) (l : List α) :
    (List.range l.length).filterMap (fun i => (l.get? i).bind g) = l.filterMap g := by
  induction l with
  | nil => rfl
  | cons a l ih =>
    rw [List.length_cons, List.range_succ_eq_map, List.filterMap_cons]
    simp only [List.get?_cons_zero, Option.some_bind, List.filterMap_map]
    have : ((fun i => ((a :: l).get? i).bind g) ∘ Nat.succ) = fun i => (l.get? i).bind g := by
      funext i; simp
    rw [this, ih]
    cases hg : g a <;> simp [List.filterMap_cons, hg]

theorem itemTags_NewQuery (data : List (String × JSON)) (name : String)
    (result : List JSON) (i : Nat) (item : JSON)
    (hA : jsonq.arrayAt (.obj data) [name] = some result)
    (hitem : result.get? i = some item) (hlen : result.length ≤ 2 ^ 63)
    (htags : ∀ tagArr, jsonq.arrayAt item ["Tags"] = some tagArr → tagArr.length ≤ 2 ^ 63) :
    itemTags (jsonq.NewQuery data) name i = tagsOfItem item := by
  have hi : i < 2 ^ 63 := by
    obtain ⟨h, -⟩ := List.get?_eq_some.1 hitem
    omega
  have hq1 := query_of_arrayAt _ _ _ hA
  have hq2 : jsonq.query (.arr result) (strconv.Itoa i) = some item := by
    rw [query_index _ _ hi, hitem]
  unfold itemTags tagsOfItem
  simp only [jsonq.NewQuery]
  rw [arrayAt_cons _ _ _ _ hq1, arrayAt_cons _ _ _ _ hq2]
  cases hT : jsonq.arrayAt item ["Tags"] with
  | none => rfl
  | some tagArr =>
    simp only
    congr 1
    refine Eq.trans ?_ (range_filterMap_get _ tagArr)
    apply List.filterMap_congr
    intro j hj
    have hj2 : j < tagArr.length := List.mem_range.1 hj
    have hj3 : j < 2 ^ 63 := lt_of_lt_of_le hj2 (htags tagArr hT)
    have hqT := query_of_arrayAt _ _ _ hT
    obtain ⟨e, he⟩ : ∃ e, tagArr.get? j = some e :=
      ⟨tagArr.get ⟨j, hj2⟩, List.get?_eq_get hj2⟩
    have hqj : jsonq.query (.arr tagArr) (strconv.Itoa j) = some e := by
      rw [query_index _ _ hj3, he]
    rw [stringAt_cons _ _ _ _ hq1, stringAt_cons _ _ _ _ hq2, stringAt_cons _ _ _ _ hqT,
      stringAt_cons _ _ _ _ hqj, stringAt_cons _ _ _ _ hq1, stringAt_cons _ _ _ _ hq2,
      stringAt_cons _ _ _ _ hqT, stringAt_cons _ _ _ _ hqj, he]
    rfl

theorem matchedItem_NewQuery (Compile : String → Option Regexp) (c : WipeCommand)
    (resDelDesc : ResourceDeleteDescription) (data : List (String × JSON))
    (result : List JSON) (i : Nat) (item : JSON)
    (hA : jsonq.arrayAt (.obj data) [resDelDesc.Name] = some result)
    (hitem : result.get? i = some item) (hlen : result.length ≤ 2 ^ 63)
    (htags : ∀ tagArr, jsonq.arrayAt item ["Tags"] = some tagArr → tagArr.length ≤ 2 ^ 63) :
    matchedItem Compile c resDelDesc (jsonq.NewQuery data) i =
      candidateOfItem Compile c resDelDesc item := by
  have hi : i < 2 ^ 63 := by
    obtain ⟨h, -⟩ := List.get?_eq_some.1 hitem
    omega
  have hq1 := query_of_arrayAt _ _ _ hA
  have hq2 : jsonq.query (.arr result) (strconv.Itoa i) = some item := by
    rw [query_index _ _ hi, hitem]
  unfold matchedItem candidateOfItem
  rw [itemTags_NewQuery data resDelDesc.Name result i item hA hitem hlen htags]
  have hs : (jsonq.NewQuery data).String_ [resDelDesc.Name, strconv.Itoa i, resDelDesc.Id] =
      jsonq.stringAt item [resDelDesc.Id] := by
    simp only [jsonq.NewQuery]
    rw [stringAt_cons _ _ _ _ hq1, stringAt_cons _ _ _ _ hq2]
  rw [hs]

/-- The id list and tag list of `listStuff` on a decoded response, item by
item: the items under the descriptor's array path, in response order, that are
matched candidates (arrays within the range of `int`). -/
theorem listStuff_NewQuery (Compile : String → Option Regexp) (c : WipeCommand)
    (resDelDesc : ResourceDeleteDescription) (data : List (String × JSON))
    (result : List JSON)
    (hA : jsonq.arrayAt (.obj data) [resDelDesc.Name] = some result)
    (hlen : result.length ≤ 2 ^ 63)
    (htags : ∀ item ∈ result, ∀ tagArr,
      jsonq.arrayAt item ["Tags"] = some tagArr → tagArr.length ≤ 2 ^ 63) :
    listStuff Compile c resDelDesc (jsonq.NewQuery data) =
      [build resDelDesc.TerraformResourceType
        (result.filterMap (candidateOfItem Compile c resDelDesc))
        Prod.fst (some Prod.snd) none] := by
  rw [listStuff_eq Compile c resDelDesc (jsonq.NewQuery data) result hA]
  have key : (List.range result.length).filterMap
      (matchedItem Compile c resDelDesc (jsonq.NewQuery data)) =
      result.filterMap (candidateOfItem Compile c resDelDesc) := by
    refine Eq.trans ?_ (range_filterMap_get _ result)
    apply List.filterMap_congr
    intro i hi
    have hi2 : i < result.length := List.mem_range.1 hi
    have hitem : result.get? i = some (result.get ⟨i, hi2⟩) := List.get?_eq_get hi2
    rw [matchedItem_NewQuery Compile c resDelDesc data result i _ hA hitem hlen
      (htags _ (List.get_mem result i hi2)), hitem]
    rfl
  rw [key]
  rfl

end Awsweeper
